/-
Verification of the media-delivery core of obs-studio (libobs):
the encoded-packet interleaver, the reconnect state machine
(src/libobs/obs-output.c), and the audio fader / volmeter engine
(src/libobs/obs-audio-controls.c).

The embedding is shallow: each C function is translated to a Lean
function over an explicit state record.  Raw encoder timestamps are
mathematical integers; the derived microsecond timestamp is embedded
with the encoder timebase fixed at one microsecond (the helper
`packet_dts_usec` lives outside the provided sources, so it is
modelled from the spec, which calls it "a derived microsecond decode
timestamp").  Fields of `struct obs_output` are declared in
obs-internal.h, which is not among the provided sources; the state
records below are therefore assembled from the spec's data model
(§3), while every function body is translated from obs-output.c /
obs-audio-controls.c.
-/
import Mathlib

namespace Obs

/-! ## Packet interleaver (obs-output.c) -/

/-- Packet kind, `enum obs_encoder_type`: video or audio. -/
inductive EncoderType where
  | video
  | audio
deriving DecidableEq, Repr

/-- EncodedPacket (spec §3): the timing and routing fields of
`struct encoder_packet` that the interleaver reads.  The payload
bytes play no role in ordering and are omitted.  `dtsUsec` is the
derived microsecond decode timestamp. -/
structure EncoderPacket where
  type : EncoderType
  trackIdx : Nat
  dts : Int
  pts : Int
  dtsUsec : Int
deriving DecidableEq, Repr

/-- Modelled from the spec: the derived microsecond decode timestamp
(`packet_dts_usec`, declared outside the provided sources).  The
encoder timebase is fixed at one microsecond, so the conversion is
the identity on the raw decode timestamp. -/
def packet_dts_usec (dts : Int) : Int := dts

/-- Interleaver-related state of `struct obs_output`.  The record
fields follow the spec's data model §3 (InterleaveBuffer, TimeOrigin,
HighWaterMarks) because obs-internal.h is not among the provided
sources; `emitted` is a ghost field recording, in order, the packets
passed downstream through `info.encoded_packet`. -/
structure InterleaveState where
  interleavedPackets : List EncoderPacket
  receivedVideo : Bool
  receivedAudio : Bool
  highestAudioTs : Int
  highestVideoTs : Int
  videoOffset : Int
  audioOffsets : Nat → Int
  totalFrames : Nat
  stopped : Bool
  emitted : List EncoderPacket

/-- `check_received`: record which packet kinds have been seen. -/
def checkReceived (s : InterleaveState) (p : EncoderPacket) : InterleaveState :=
  if p.type = .video then { s with receivedVideo := true }
  else { s with receivedAudio := true }

/-- `apply_interleaved_packet_offset`: subtract the stream's time
origin from dts/pts and recompute the microsecond dts. -/
def applyInterleavedPacketOffset (s : InterleaveState) (p : EncoderPacket) :
    EncoderPacket :=
  let offset := if p.type = .video then s.videoOffset else s.audioOffsets p.trackIdx
  { p with
    dts := p.dts - offset
    pts := p.pts - offset
    dtsUsec := packet_dts_usec (p.dts - offset) }

/-- `has_higher_opposing_ts`: the emission gate — the opposing kind's
high-water-mark strictly exceeds the packet's microsecond dts. -/
def hasHigherOpposingTs (s : InterleaveState) (p : EncoderPacket) : Bool :=
  if p.type = .video then s.highestAudioTs > p.dtsUsec
  else s.highestVideoTs > p.dtsUsec

/-- `send_interleaved`: pop the earliest buffered packet and pass it
downstream, but only if the gate holds.  (In C the head is read
unconditionally; the function is only ever invoked with a non-empty
buffer, and the empty case here returns the state unchanged.) -/
def sendInterleaved (s : InterleaveState) : InterleaveState :=
  match s.interleavedPackets with
  | [] => s
  | out :: rest =>
    if ¬ hasHigherOpposingTs s out then s
    else
      let s := if out.type = .video then { s with totalFrames := s.totalFrames + 1 } else s
      let s := { s with interleavedPackets := rest }
      if ¬ s.stopped then { s with emitted := s.emitted ++ [out] } else s

/-- `set_higher_ts`: raise the packet kind's high-water-mark. -/
def setHigherTs (s : InterleaveState) (p : EncoderPacket) : InterleaveState :=
  if p.type = .video then
    if s.highestVideoTs < p.dtsUsec then { s with highestVideoTs := p.dtsUsec } else s
  else
    if s.highestAudioTs < p.dtsUsec then { s with highestAudioTs := p.dtsUsec } else s

/-- `can_prune_interleaved_packet` at the head of the (sub)buffer:
an audio packet may be pruned unless it is the last packet or the
next packet is a video packet with the same microsecond dts. -/
def canPruneHead (l : List EncoderPacket) : Bool :=
  match l with
  | p :: next :: _ =>
    if p.type ≠ .audio then false
    else if next.type = .video ∧ next.dtsUsec = p.dtsUsec then false
    else true
  | _ => false

/-- `prune_interleaved_packets`: drop the longest prunable prefix. -/
def pruneList : List EncoderPacket → List EncoderPacket
  | [] => []
  | p :: rest => if canPruneHead (p :: rest) then pruneList rest else p :: rest

/-- `prune_interleaved_packets` acting on the state. -/
def pruneInterleavedPackets (s : InterleaveState) : InterleaveState :=
  { s with interleavedPackets := pruneList s.interleavedPackets }

/-- `find_first_packet_type`: first buffered packet of the given
kind (for audio, of the given track index). -/
def findFirstPacketType (l : List EncoderPacket) (t : EncoderType) (audioIdx : Nat) :
    Option EncoderPacket :=
  match l with
  | [] => none
  | p :: rest =>
    if p.type = t ∧ (t = .audio → p.trackIdx = audioIdx) then some p
    else findFirstPacketType rest t audioIdx

/-- The audio half of `initialize_interleaved_packets`: the first
packet of each audio track `i, i+1, …` for `n` tracks, or `none` as
soon as some track has produced no packet. -/
def findAudioFirsts (l : List EncoderPacket) : Nat → Nat → Option (List EncoderPacket)
  | _, 0 => some []
  | i, n + 1 =>
    match findFirstPacketType l .audio i with
    | none => none
    | some p => (findAudioFirsts l (i + 1) n).map (p :: ·)

/-- Placeholder packet used only for an out-of-range list read; every
use below is guarded by an index bound (`num_audio_mixes ≥ 1`). -/
def defaultPacket : EncoderPacket := ⟨.audio, 0, 0, 0, 0⟩

/-- `initialize_interleaved_packets`: record each stream's time
origin from its first buffered packet, correct the high-water-marks,
and apply the new offsets to every buffered packet.  Returns `false`
(resetting the corresponding received flag) if some required stream
has no buffered packet.  `mixes` is `num_audio_mixes(output)`. -/
def initializeInterleavedPackets (mixes : Nat) (s : InterleaveState) :
    Bool × InterleaveState :=
  let video? := findFirstPacketType s.interleavedPackets .video 0
  let s := if video?.isNone then { s with receivedVideo := false } else s
  match findAudioFirsts s.interleavedPackets 0 mixes with
  | none => (false, { s with receivedAudio := false })
  | some audioFirsts =>
    match video? with
    | none => (false, s)
    | some video =>
      let firstAudio := audioFirsts.getD 0 defaultPacket
      let s := { s with
        videoOffset := video.dts
        audioOffsets := fun j =>
          if j < mixes then (audioFirsts.getD j defaultPacket).dts else s.audioOffsets j
        highestAudioTs := s.highestAudioTs - firstAudio.dtsUsec
        highestVideoTs := s.highestVideoTs - video.dtsUsec }
      (true, { s with
        interleavedPackets := s.interleavedPackets.map (applyInterleavedPacketOffset s) })

/-- `insert_interleaved_packet`: insert before the first buffered
packet with a strictly larger microsecond dts. -/
def insertInterleaved (out : EncoderPacket) : List EncoderPacket → List EncoderPacket
  | [] => [out]
  | cur :: rest =>
    if out.dtsUsec < cur.dtsUsec then out :: cur :: rest
    else cur :: insertInterleaved out rest

/-- `resort_interleaved_packets`: rebuild the buffer by re-inserting
every packet in order into an empty buffer. -/
def resortList (l : List EncoderPacket) : List EncoderPacket :=
  l.foldl (fun acc p => insertInterleaved p acc) []

/-- `resort_interleaved_packets` acting on the state. -/
def resortInterleavedPackets (s : InterleaveState) : InterleaveState :=
  { s with interleavedPackets := resortList s.interleavedPackets }

/-- `interleave_packets`: the per-packet entry point.  The incoming
packet is assumed to carry its correct track index already
(`get_track_index` resolves it from the configured encoder slots,
which are outside this model; its violation is an assertion in C). -/
def interleavePackets (mixes : Nat) (s : InterleaveState) (packet : EncoderPacket) :
    InterleaveState :=
  let wasStarted := s.receivedAudio && s.receivedVideo
  let out := if wasStarted then applyInterleavedPacketOffset s packet else packet
  let s := if wasStarted then s else checkReceived s packet
  let s := { s with interleavedPackets := insertInterleaved out s.interleavedPackets }
  let s := setHigherTs s out
  if s.receivedAudio && s.receivedVideo then
    if ¬ wasStarted then
      let s := pruneInterleavedPackets s
      match initializeInterleavedPackets mixes s with
      | (true, s) => sendInterleaved (resortInterleavedPackets s)
      | (false, s) => s
    else sendInterleaved s
  else s

/-- Interleaver state at the start of an activation:
`struct obs_output` is zero-allocated and `hook_data_capture` clears
the received flags, the high-water-marks, the offsets and the packet
buffer. -/
def initialInterleaveState : InterleaveState where
  interleavedPackets := []
  receivedVideo := false
  receivedAudio := false
  highestAudioTs := 0
  highestVideoTs := 0
  videoOffset := 0
  audioOffsets := fun _ => 0
  totalFrames := 0
  stopped := false
  emitted := []

/-- Run one activation: feed the packets of one interleaving, in
arrival order, through `interleave_packets`. -/
def runInterleave (mixes : Nat) (pkts : List EncoderPacket) : InterleaveState :=
  pkts.foldl (interleavePackets mixes) initialInterleaveState

/-- A video packet with equal raw dts, pts and microsecond dts. -/
def vPkt (t : Int) : EncoderPacket := ⟨.video, 0, t, t, t⟩

/-- An audio packet on the given track with equal raw dts, pts and
microsecond dts. -/
def aPkt (trk : Nat) (t : Int) : EncoderPacket := ⟨.audio, trk, t, t, t⟩

/-- The microsecond decode timestamps of the emitted packets, in
emission order. -/
def emittedUsec (s : InterleaveState) : List Int :=
  s.emitted.map (·.dtsUsec)

/-- Non-decreasing, as a Boolean predicate on timestamp lists. -/
def usecMonotone : List Int → Bool
  | [] => true
  | [_] => true
  | a :: b :: rest => a ≤ b && usecMonotone (b :: rest)

theorem usecMonotone_iff_chain' :
    ∀ l : List Int, usecMonotone l = true ↔ List.Chain' (· ≤ ·) l := by
  intro l
  induction l with
  | nil => simp [usecMonotone]
  | cons a rest ih =>
    cases rest with
    | nil => simp [usecMonotone]
    | cons b t =>
      rw [usecMonotone, List.chain'_cons, Bool.and_eq_true, decide_eq_true_eq, ih]

/-! ### Buffer ordering lemmas -/

/-- The buffer order: ascending microsecond decode timestamps. -/
def BufSorted (l : List EncoderPacket) : Prop :=
  List.Pairwise (fun a b => a.dtsUsec ≤ b.dtsUsec) l

theorem mem_insertInterleaved {q out : EncoderPacket} :
    ∀ {l : List EncoderPacket}, q ∈ insertInterleaved out l ↔ q = out ∨ q ∈ l := by
  intro l
  induction l with
  | nil => simp [insertInterleaved]
  | cons cur rest ih =>
    by_cases h : out.dtsUsec < cur.dtsUsec
    · simp [insertInterleaved, h]
    · simp [insertInterleaved, h, ih]
      tauto

theorem sorted_insertInterleaved {out : EncoderPacket} :
    ∀ {l : List EncoderPacket}, BufSorted l → BufSorted (insertInterleaved out l) := by
  intro l
  induction l with
  | nil => intro _; simp [insertInterleaved, BufSorted]
  | cons cur rest ih =>
    intro hs
    rw [BufSorted, List.pairwise_cons] at hs
    obtain ⟨hcur, hrest⟩ := hs
    by_cases h : out.dtsUsec < cur.dtsUsec
    · rw [insertInterleaved, if_pos h, BufSorted, List.pairwise_cons]
      refine ⟨?_, ?_⟩
      · intro b hb
        rcases List.mem_cons.mp hb with rfl | hb
        · exact le_of_lt h
        · exact le_trans (le_of_lt h) (hcur b hb)
      · exact List.pairwise_cons.mpr ⟨hcur, hrest⟩
    · rw [insertInterleaved, if_neg h, BufSorted, List.pairwise_cons]
      refine ⟨?_, ih hrest⟩
      intro b hb
      rcases mem_insertInterleaved.mp hb with rfl | hb
      · exact le_of_not_lt h
      · exact hcur b hb

theorem mem_resortList_aux {q : EncoderPacket} :
    ∀ (l acc : List EncoderPacket),
      q ∈ l.foldl (fun acc p => insertInterleaved p acc) acc ↔ q ∈ acc ∨ q ∈ l := by
  intro l
  induction l with
  | nil => simp
  | cons p rest ih =>
    intro acc
    rw [List.foldl_cons, ih]
    simp [mem_insertInterleaved]
    tauto

theorem mem_resortList {q : EncoderPacket} {l : List EncoderPacket} :
    q ∈ resortList l ↔ q ∈ l := by
  rw [resortList, mem_resortList_aux]
  simp

theorem sorted_resortList_aux :
    ∀ (l acc : List EncoderPacket), BufSorted acc →
      BufSorted (l.foldl (fun acc p => insertInterleaved p acc) acc) := by
  intro l
  induction l with
  | nil => intro acc h; simpa using h
  | cons p rest ih =>
    intro acc h
    rw [List.foldl_cons]
    exact ih _ (sorted_insertInterleaved h)

theorem sorted_resortList {l : List EncoderPacket} : BufSorted (resortList l) :=
  sorted_resortList_aux l [] (by simp [BufSorted])

theorem mem_pruneList {q : EncoderPacket} :
    ∀ {l : List EncoderPacket}, q ∈ pruneList l → q ∈ l := by
  intro l
  induction l with
  | nil => simp [pruneList]
  | cons p rest ih =>
    intro h
    rw [pruneList] at h
    split at h
    · exact List.mem_cons_of_mem _ (ih h)
    · exact h

theorem sorted_pruneList :
    ∀ {l : List EncoderPacket}, BufSorted l → BufSorted (pruneList l) := by
  intro l
  induction l with
  | nil => intro h; simpa [pruneList] using h
  | cons p rest ih =>
    intro h
    rw [pruneList]
    split
    · exact ih (List.Pairwise.of_cons h)
    · exact h

theorem findFirstPacketType_mem {t : EncoderType} {i : Nat} {p : EncoderPacket} :
    ∀ {l : List EncoderPacket}, findFirstPacketType l t i = some p → p ∈ l := by
  intro l
  induction l with
  | nil => simp [findFirstPacketType]
  | cons q rest ih =>
    intro h
    rw [findFirstPacketType] at h
    split at h
    · cases h; exact List.mem_cons_self _ _
    · exact List.mem_cons_of_mem _ (ih h)

theorem findFirstPacketType_type {t : EncoderType} {i : Nat} {p : EncoderPacket} :
    ∀ {l : List EncoderPacket}, findFirstPacketType l t i = some p → p.type = t := by
  intro l
  induction l with
  | nil => simp [findFirstPacketType]
  | cons q rest ih =>
    intro h
    rw [findFirstPacketType] at h
    split at h
    · cases h; tauto
    · exact ih h

/-! ### The interleaver invariant -/

theorem audio_ne_video : EncoderType.audio ≠ EncoderType.video := fun h => nomatch h

theorem video_ne_audio : EncoderType.video ≠ EncoderType.audio := fun h => nomatch h

/-- Well-formed packet for a single-audio-track activation with a
one-microsecond timebase: the microsecond dts equals the raw dts, and
audio packets live on track 0. -/
def WfPacket (p : EncoderPacket) : Prop :=
  p.dtsUsec = p.dts ∧ (p.type = .audio → p.trackIdx = 0)

/-- The high-water-mark of a packet kind. -/
def wmOf (s : InterleaveState) (t : EncoderType) : Int :=
  match t with
  | .video => s.highestVideoTs
  | .audio => s.highestAudioTs

/-- The most recently emitted packet lies below everything still
buffered and below both high-water-marks. -/
def LastEmittedLe (s : InterleaveState) : Prop :=
  ∀ e ∈ s.emitted.getLast?,
    (∀ q ∈ s.interleavedPackets, e.dtsUsec ≤ q.dtsUsec) ∧
    e.dtsUsec ≤ s.highestVideoTs ∧ e.dtsUsec ≤ s.highestAudioTs

/-- Invariant maintained by `interleave_packets` across one
activation (single audio track, per-stream monotone non-negative
timestamps). -/
structure InterInv (s : InterleaveState) : Prop where
  sorted : BufSorted s.interleavedPackets
  wf : ∀ p ∈ s.interleavedPackets, WfPacket p
  bound : ∀ p ∈ s.interleavedPackets, p.dtsUsec ≤ wmOf s p.type
  notStopped : s.stopped = false
  phaseA : (s.receivedAudio && s.receivedVideo) = false →
    s.emitted = [] ∧ s.videoOffset = 0 ∧ s.audioOffsets 0 = 0
  mono : List.Chain' (fun a b => a.dtsUsec ≤ b.dtsUsec) s.emitted
  lastLe : LastEmittedLe s

/-- Arrival discipline, threaded through the run: `rv` / `ra` are the
largest raw timestamps delivered so far on the video / audio stream
(starting from the zeroed high-water-marks), and each stream delivers
non-decreasing raw timestamps. -/
def Arrivals : Int → Int → List EncoderPacket → Prop
  | _, _, [] => True
  | rv, ra, p :: rest =>
    WfPacket p ∧
    (match p.type with
     | .video => rv ≤ p.dts ∧ Arrivals p.dts ra rest
     | .audio => ra ≤ p.dts ∧ Arrivals rv p.dts rest)

theorem sendInterleaved_fields (s : InterleaveState) :
    (sendInterleaved s).highestVideoTs = s.highestVideoTs ∧
    (sendInterleaved s).highestAudioTs = s.highestAudioTs ∧
    (sendInterleaved s).videoOffset = s.videoOffset ∧
    (sendInterleaved s).audioOffsets = s.audioOffsets ∧
    (sendInterleaved s).receivedVideo = s.receivedVideo ∧
    (sendInterleaved s).receivedAudio = s.receivedAudio ∧
    (sendInterleaved s).stopped = s.stopped := by
  rw [sendInterleaved]
  cases hb : s.interleavedPackets with
  | nil => exact ⟨rfl, rfl, rfl, rfl, rfl, rfl, rfl⟩
  | cons out rest =>
    by_cases hg : hasHigherOpposingTs s out
    · by_cases hvt : out.type = .video <;> by_cases hstop : s.stopped <;>
        simp [hg, hvt, hstop]
    · simp [hg]

theorem sendInterleaved_inv (s : InterleaveState)
    (hflags : (s.receivedAudio && s.receivedVideo) = true)
    (h : InterInv s) : InterInv (sendInterleaved s) := by
  obtain ⟨hsort, hwf, hbound, hstop, hphase, hmono, hlast⟩ := h
  rw [sendInterleaved]
  cases hb : s.interleavedPackets with
  | nil =>
    show InterInv s
    exact ⟨hsort, hwf, hbound, hstop, hphase, hmono, hlast⟩
  | cons out rest =>
    have houtmem : out ∈ s.interleavedPackets := by
      rw [hb]; exact List.mem_cons_self _ _
    have hsort' : BufSorted (out :: rest) := by rw [← hb]; exact hsort
    have hwf' : ∀ p ∈ out :: rest, WfPacket p := by rw [← hb]; exact hwf
    have hbound' : ∀ p ∈ out :: rest, p.dtsUsec ≤ wmOf s p.type := by
      rw [← hb]; exact hbound
    by_cases hg : hasHigherOpposingTs s out
    · have hout : out.dtsUsec ≤ wmOf s out.type :=
        hbound' out (List.mem_cons_self _ _)
      have hVA : out.dtsUsec ≤ s.highestVideoTs ∧ out.dtsUsec ≤ s.highestAudioTs := by
        rw [hasHigherOpposingTs] at hg
        cases ht : out.type <;> rw [ht] at hg hout <;>
          simp only [wmOf, reduceIte, decide_eq_true_eq] at hg hout ⊢
        · exact ⟨hout, le_of_lt (by simpa using hg)⟩
        · exact ⟨le_of_lt (by simpa using hg), hout⟩
      have hrest : ∀ q ∈ rest, out.dtsUsec ≤ q.dtsUsec :=
        (List.pairwise_cons.mp hsort').1
      have hmono' : List.Chain' (fun a b => a.dtsUsec ≤ b.dtsUsec)
          (s.emitted ++ [out]) := by
        refine List.Chain'.append hmono (List.chain'_singleton _) ?_
        intro x hx y hy
        simp only [List.head?_cons, Option.mem_def, Option.some.injEq] at hy
        subst hy
        exact (hlast x hx).1 out houtmem
      have hlastout : (s.emitted ++ [out]).getLast? = some out :=
        List.getLast?_concat _
      have make : ∀ s' : InterleaveState,
          s'.interleavedPackets = rest →
          s'.highestVideoTs = s.highestVideoTs →
          s'.highestAudioTs = s.highestAudioTs →
          s'.receivedVideo = s.receivedVideo →
          s'.receivedAudio = s.receivedAudio →
          s'.stopped = s.stopped →
          s'.emitted = s.emitted ++ [out] →
          InterInv s' := by
        intro s' hbuf hwv hwa hrv hra hst hem
        refine ⟨?_, ?_, ?_, ?_, ?_, ?_, ?_⟩
        · rw [hbuf]; exact List.Pairwise.of_cons hsort'
        · rw [hbuf]; exact fun q hq => hwf' q (List.mem_cons_of_mem _ hq)
        · rw [hbuf]
          intro q hq
          have hq' := hbound' q (List.mem_cons_of_mem _ hq)
          cases ht : q.type <;> rw [ht] at hq' <;>
            simpa [wmOf, hwv, hwa] using hq'
        · rw [hst]; exact hstop
        · rw [hrv, hra]
          intro hcontra
          rw [hflags] at hcontra
          exact absurd hcontra (by simp)
        · rw [hem]; exact hmono'
        · intro e he
          rw [hem, hlastout, Option.mem_def, Option.some.injEq] at he
          subst he
          rw [hbuf, hwv, hwa]
          exact ⟨hrest, hVA.1, hVA.2⟩
      by_cases hvt : out.type = .video <;>
        simp only [hg, not_true_eq_false, if_false, Bool.false_eq_true, hvt,
          reduceIte, hstop, Bool.not_false, if_true] <;>
        apply make <;> simp [hstop]
    · simp only [hg, Bool.false_eq_true, not_false_eq_true, if_true]
      exact ⟨hsort, hwf, hbound, hstop, hphase, hmono, hlast⟩

@[simp] theorem setHigherTs_interleavedPackets (s : InterleaveState) (c : EncoderPacket) :
    (setHigherTs s c).interleavedPackets = s.interleavedPackets := by
  rw [setHigherTs]; split_ifs <;> rfl

@[simp] theorem setHigherTs_receivedVideo (s : InterleaveState) (c : EncoderPacket) :
    (setHigherTs s c).receivedVideo = s.receivedVideo := by
  rw [setHigherTs]; split_ifs <;> rfl

@[simp] theorem setHigherTs_receivedAudio (s : InterleaveState) (c : EncoderPacket) :
    (setHigherTs s c).receivedAudio = s.receivedAudio := by
  rw [setHigherTs]; split_ifs <;> rfl

@[simp] theorem setHigherTs_videoOffset (s : InterleaveState) (c : EncoderPacket) :
    (setHigherTs s c).videoOffset = s.videoOffset := by
  rw [setHigherTs]; split_ifs <;> rfl

@[simp] theorem setHigherTs_audioOffsets (s : InterleaveState) (c : EncoderPacket) :
    (setHigherTs s c).audioOffsets = s.audioOffsets := by
  rw [setHigherTs]; split_ifs <;> rfl

@[simp] theorem setHigherTs_stopped (s : InterleaveState) (c : EncoderPacket) :
    (setHigherTs s c).stopped = s.stopped := by
  rw [setHigherTs]; split_ifs <;> rfl

@[simp] theorem setHigherTs_emitted (s : InterleaveState) (c : EncoderPacket) :
    (setHigherTs s c).emitted = s.emitted := by
  rw [setHigherTs]; split_ifs <;> rfl

@[simp] theorem checkReceived_interleavedPackets (s : InterleaveState) (p : EncoderPacket) :
    (checkReceived s p).interleavedPackets = s.interleavedPackets := by
  rw [checkReceived]; split_ifs <;> rfl

@[simp] theorem checkReceived_highestVideoTs (s : InterleaveState) (p : EncoderPacket) :
    (checkReceived s p).highestVideoTs = s.highestVideoTs := by
  rw [checkReceived]; split_ifs <;> rfl

@[simp] theorem checkReceived_highestAudioTs (s : InterleaveState) (p : EncoderPacket) :
    (checkReceived s p).highestAudioTs = s.highestAudioTs := by
  rw [checkReceived]; split_ifs <;> rfl

@[simp] theorem checkReceived_videoOffset (s : InterleaveState) (p : EncoderPacket) :
    (checkReceived s p).videoOffset = s.videoOffset := by
  rw [checkReceived]; split_ifs <;> rfl

@[simp] theorem checkReceived_audioOffsets (s : InterleaveState) (p : EncoderPacket) :
    (checkReceived s p).audioOffsets = s.audioOffsets := by
  rw [checkReceived]; split_ifs <;> rfl

@[simp] theorem checkReceived_stopped (s : InterleaveState) (p : EncoderPacket) :
    (checkReceived s p).stopped = s.stopped := by
  rw [checkReceived]; split_ifs <;> rfl

@[simp] theorem checkReceived_emitted (s : InterleaveState) (p : EncoderPacket) :
    (checkReceived s p).emitted = s.emitted := by
  rw [checkReceived]; split_ifs <;> rfl

theorem setHigherTs_wm (s : InterleaveState) (c : EncoderPacket)
    (hwm : wmOf s c.type ≤ c.dtsUsec) :
    (setHigherTs s c).highestVideoTs =
      (if c.type = .video then c.dtsUsec else s.highestVideoTs) ∧
    (setHigherTs s c).highestAudioTs =
      (if c.type = .audio then c.dtsUsec else s.highestAudioTs) := by
  rw [setHigherTs]
  cases ht : c.type <;> rw [ht] at hwm <;> simp only [wmOf] at hwm <;>
    split_ifs <;> simp_all <;> omega

theorem setHigherTs_wm_le (s : InterleaveState) (c : EncoderPacket) :
    s.highestVideoTs ≤ (setHigherTs s c).highestVideoTs ∧
    s.highestAudioTs ≤ (setHigherTs s c).highestAudioTs := by
  rw [setHigherTs]
  split_ifs <;> simp_all <;> omega

/-- The common insert-then-raise-watermark step of
`interleave_packets` preserves the invariant, for any packet lying at
or above its own kind's high-water-mark. -/
theorem insert_setHigher_inv (s : InterleaveState) (c : EncoderPacket)
    (h : InterInv s) (hcwf : WfPacket c) (hwm : wmOf s c.type ≤ c.dtsUsec) :
    InterInv (setHigherTs
      { s with interleavedPackets := insertInterleaved c s.interleavedPackets } c) := by
  obtain ⟨hsort, hwfb, hbound, hstop, hphase, hmono, hlast⟩ := h
  set s2 : InterleaveState :=
    { s with interleavedPackets := insertInterleaved c s.interleavedPackets } with hs2
  have hwm2 : wmOf s2 c.type ≤ c.dtsUsec := hwm
  have hwms := setHigherTs_wm s2 c hwm2
  have hles := setHigherTs_wm_le s2 c
  refine ⟨?_, ?_, ?_, ?_, ?_, ?_, ?_⟩
  · rw [setHigherTs_interleavedPackets]
    exact sorted_insertInterleaved hsort
  · rw [setHigherTs_interleavedPackets]
    intro q hq
    rcases mem_insertInterleaved.mp hq with rfl | hq
    · exact hcwf
    · exact hwfb q hq
  · rw [setHigherTs_interleavedPackets]
    intro q hq
    rcases mem_insertInterleaved.mp hq with rfl | hq
    · cases ht : q.type
      · simp only [wmOf, hwms.1, ht, reduceIte, le_refl]
      · simp only [wmOf, hwms.2, ht, reduceIte, le_refl]
    · have hq' := hbound q hq
      cases ht : q.type
      · rw [ht] at hq'
        simp only [wmOf] at hq' ⊢
        exact le_trans hq' hles.1
      · rw [ht] at hq'
        simp only [wmOf] at hq' ⊢
        exact le_trans hq' hles.2
  · rw [setHigherTs_stopped]; exact hstop
  · rw [setHigherTs_receivedAudio, setHigherTs_receivedVideo,
      setHigherTs_emitted, setHigherTs_videoOffset, setHigherTs_audioOffsets]
    exact hphase
  · rw [setHigherTs_emitted]; exact hmono
  · intro e he
    rw [setHigherTs_emitted] at he
    have he' := hlast e he
    refine ⟨?_, le_trans he'.2.1 hles.1, le_trans he'.2.2 hles.2⟩
    rw [setHigherTs_interleavedPackets]
    intro q hq
    rcases mem_insertInterleaved.mp hq with rfl | hq
    · have : e.dtsUsec ≤ wmOf s q.type := by
        cases ht : q.type <;> simp only [wmOf] <;>
          [exact he'.2.1; exact he'.2.2]
      exact le_trans this hwm
    · exact he'.1 q hq

/-- Pruning the buffer preserves the invariant. -/
theorem prune_inv (s : InterleaveState) (h : InterInv s) :
    InterInv (pruneInterleavedPackets s) := by
  obtain ⟨hsort, hwfb, hbound, hstop, hphase, hmono, hlast⟩ := h
  refine ⟨sorted_pruneList hsort, ?_, ?_, hstop, hphase, hmono, ?_⟩
  · exact fun q hq => hwfb q (mem_pruneList hq)
  · exact fun q hq => hbound q (mem_pruneList hq)
  · intro e he
    have he' := hlast e he
    exact ⟨fun q hq => he'.1 q (mem_pruneList hq), he'.2.1, he'.2.2⟩

/-- In the unsynchronized phase the received flags may be rewritten
freely: the emitted list is empty and the offsets are still zero, so
every flag-dependent clause of the invariant holds. -/
theorem setFlags_inv (s : InterleaveState) (h : InterInv s)
    (hem : s.emitted = []) (hvo : s.videoOffset = 0) (hao : s.audioOffsets 0 = 0)
    (rv ra : Bool) :
    InterInv { s with receivedVideo := rv, receivedAudio := ra } := by
  obtain ⟨hsort, hwfb, hbound, hstop, _, hmono, hlast⟩ := h
  exact ⟨hsort, hwfb, hbound, hstop, fun _ => ⟨hem, hvo, hao⟩, hmono, hlast⟩

/-- The insert-and-raise-watermark portion of `interleave_packets`. -/
def afterInsert (s : InterleaveState) (c : EncoderPacket) : InterleaveState :=
  setHigherTs { s with interleavedPackets := insertInterleaved c s.interleavedPackets } c

theorem afterInsert_inv (s : InterleaveState) (c : EncoderPacket)
    (h : InterInv s) (hcwf : WfPacket c) (hwm : wmOf s c.type ≤ c.dtsUsec) :
    InterInv (afterInsert s c) :=
  insert_setHigher_inv s c h hcwf hwm

@[simp] theorem afterInsert_receivedVideo (s : InterleaveState) (c : EncoderPacket) :
    (afterInsert s c).receivedVideo = s.receivedVideo := by
  rw [afterInsert, setHigherTs_receivedVideo]

@[simp] theorem afterInsert_receivedAudio (s : InterleaveState) (c : EncoderPacket) :
    (afterInsert s c).receivedAudio = s.receivedAudio := by
  rw [afterInsert, setHigherTs_receivedAudio]

@[simp] theorem afterInsert_videoOffset (s : InterleaveState) (c : EncoderPacket) :
    (afterInsert s c).videoOffset = s.videoOffset := by
  rw [afterInsert, setHigherTs_videoOffset]

@[simp] theorem afterInsert_audioOffsets (s : InterleaveState) (c : EncoderPacket) :
    (afterInsert s c).audioOffsets = s.audioOffsets := by
  rw [afterInsert, setHigherTs_audioOffsets]

@[simp] theorem afterInsert_emitted (s : InterleaveState) (c : EncoderPacket) :
    (afterInsert s c).emitted = s.emitted := by
  rw [afterInsert, setHigherTs_emitted]

theorem afterInsert_wm (s : InterleaveState) (c : EncoderPacket)
    (hwm : wmOf s c.type ≤ c.dtsUsec) :
    (afterInsert s c).highestVideoTs =
      (if c.type = .video then c.dtsUsec else s.highestVideoTs) ∧
    (afterInsert s c).highestAudioTs =
      (if c.type = .audio then c.dtsUsec else s.highestAudioTs) :=
  setHigherTs_wm _ c hwm

theorem interleavePackets_started_eq (s : InterleaveState) (p : EncoderPacket)
    (hws : (s.receivedAudio && s.receivedVideo) = true) :
    interleavePackets 1 s p =
      sendInterleaved (afterInsert s (applyInterleavedPacketOffset s p)) := by
  rw [interleavePackets, afterInsert]
  simp only [hws, if_true, reduceIte, setHigherTs_receivedAudio, setHigherTs_receivedVideo,
    not_true_eq_false, Bool.false_eq_true, if_false, ite_false, ite_true]

theorem interleavePackets_unstarted_eq (s : InterleaveState) (p : EncoderPacket)
    (hws : (s.receivedAudio && s.receivedVideo) = false) :
    interleavePackets 1 s p =
      (if ((checkReceived s p).receivedAudio && (checkReceived s p).receivedVideo) = true
       then
         match initializeInterleavedPackets 1
             (pruneInterleavedPackets (afterInsert (checkReceived s p) p)) with
         | (true, s5) => sendInterleaved (resortInterleavedPackets s5)
         | (false, s5) => s5
       else afterInsert (checkReceived s p) p) := by
  rw [interleavePackets, afterInsert]
  simp only [hws, Bool.false_eq_true, if_false, reduceIte, ite_false, ite_true,
    setHigherTs_receivedAudio, setHigherTs_receivedVideo, not_false_eq_true, if_true]

@[simp] theorem resort_interleavedPackets (s : InterleaveState) :
    (resortInterleavedPackets s).interleavedPackets = resortList s.interleavedPackets := rfl

@[simp] theorem resort_highestVideoTs (s : InterleaveState) :
    (resortInterleavedPackets s).highestVideoTs = s.highestVideoTs := rfl

@[simp] theorem resort_highestAudioTs (s : InterleaveState) :
    (resortInterleavedPackets s).highestAudioTs = s.highestAudioTs := rfl

@[simp] theorem resort_videoOffset (s : InterleaveState) :
    (resortInterleavedPackets s).videoOffset = s.videoOffset := rfl

@[simp] theorem resort_audioOffsets (s : InterleaveState) :
    (resortInterleavedPackets s).audioOffsets = s.audioOffsets := rfl

@[simp] theorem resort_receivedVideo (s : InterleaveState) :
    (resortInterleavedPackets s).receivedVideo = s.receivedVideo := rfl

@[simp] theorem resort_receivedAudio (s : InterleaveState) :
    (resortInterleavedPackets s).receivedAudio = s.receivedAudio := rfl

@[simp] theorem resort_stopped (s : InterleaveState) :
    (resortInterleavedPackets s).stopped = s.stopped := rfl

@[simp] theorem resort_emitted (s : InterleaveState) :
    (resortInterleavedPackets s).emitted = s.emitted := rfl

@[simp] theorem prune_interleavedPackets_eq (s : InterleaveState) :
    (pruneInterleavedPackets s).interleavedPackets = pruneList s.interleavedPackets := rfl

@[simp] theorem prune_highestVideoTs (s : InterleaveState) :
    (pruneInterleavedPackets s).highestVideoTs = s.highestVideoTs := rfl

@[simp] theorem prune_highestAudioTs (s : InterleaveState) :
    (pruneInterleavedPackets s).highestAudioTs = s.highestAudioTs := rfl

@[simp] theorem prune_videoOffset (s : InterleaveState) :
    (pruneInterleavedPackets s).videoOffset = s.videoOffset := rfl

@[simp] theorem prune_audioOffsets (s : InterleaveState) :
    (pruneInterleavedPackets s).audioOffsets = s.audioOffsets := rfl

@[simp] theorem prune_receivedVideo (s : InterleaveState) :
    (pruneInterleavedPackets s).receivedVideo = s.receivedVideo := rfl

@[simp] theorem prune_receivedAudio (s : InterleaveState) :
    (pruneInterleavedPackets s).receivedAudio = s.receivedAudio := rfl

@[simp] theorem prune_stopped (s : InterleaveState) :
    (pruneInterleavedPackets s).stopped = s.stopped := rfl

@[simp] theorem prune_emitted (s : InterleaveState) :
    (pruneInterleavedPackets s).emitted = s.emitted := rfl

theorem findAudioFirsts_one (l : List EncoderPacket) :
    findAudioFirsts l 0 1 = (findFirstPacketType l .audio 0).map (fun f => [f]) := by
  rw [findAudioFirsts]
  cases findFirstPacketType l .audio 0 <;> simp [findAudioFirsts]

theorem initialize_false_inv (m : Nat) (s s5 : InterleaveState) (h : InterInv s)
    (hem : s.emitted = []) (hvo : s.videoOffset = 0) (hao : s.audioOffsets 0 = 0)
    (hini : initializeInterleavedPackets m s = (false, s5)) :
    InterInv s5 ∧ s5.highestVideoTs = s.highestVideoTs ∧
    s5.highestAudioTs = s.highestAudioTs ∧
    s5.videoOffset = 0 ∧ s5.audioOffsets 0 = 0 := by
  rw [initializeInterleavedPackets] at hini
  cases hfv : findFirstPacketType s.interleavedPackets .video 0 with
  | none =>
    rw [hfv] at hini
    simp only [Option.isNone_none, if_true, reduceIte] at hini
    cases haf : findAudioFirsts s.interleavedPackets 0 m with
    | none =>
      rw [haf] at hini
      cases hini
      exact ⟨setFlags_inv s h hem hvo hao false false, rfl, rfl, hvo, hao⟩
    | some af =>
      rw [haf] at hini
      cases hini
      exact ⟨setFlags_inv s h hem hvo hao false s.receivedAudio, rfl, rfl, hvo, hao⟩
  | some v =>
    rw [hfv] at hini
    simp only [Option.isNone_some, Bool.false_eq_true, if_false, reduceIte] at hini
    cases haf : findAudioFirsts s.interleavedPackets 0 m with
    | none =>
      rw [haf] at hini
      cases hini
      exact ⟨setFlags_inv s h hem hvo hao s.receivedVideo false, rfl, rfl, hvo, hao⟩
    | some af =>
      rw [haf] at hini
      cases hini

theorem initialize_true_inv (s s5 : InterleaveState) (h : InterInv s)
    (hem : s.emitted = []) (hflags : (s.receivedAudio && s.receivedVideo) = true)
    (hini : initializeInterleavedPackets 1 s = (true, s5)) :
    InterInv (resortInterleavedPackets s5) ∧
    s5.highestVideoTs + s5.videoOffset = s.highestVideoTs ∧
    s5.highestAudioTs + s5.audioOffsets 0 = s.highestAudioTs ∧
    s5.receivedAudio = s.receivedAudio ∧ s5.receivedVideo = s.receivedVideo ∧
    s5.emitted = [] ∧ s5.stopped = s.stopped := by
  obtain ⟨hsort, hwfb, hbound, hstop, hphase, hmono, hlast⟩ := h
  rw [initializeInterleavedPackets] at hini
  cases hfv : findFirstPacketType s.interleavedPackets .video 0 with
  | none =>
    rw [hfv] at hini
    simp only [Option.isNone_none, reduceIte] at hini
    cases haf : findAudioFirsts s.interleavedPackets 0 1 with
    | none => rw [haf] at hini; cases hini
    | some af => rw [haf] at hini; cases hini
  | some v =>
    rw [hfv] at hini
    simp only [Option.isNone_some, Bool.false_eq_true, reduceIte] at hini
    rw [findAudioFirsts_one] at hini
    cases haf : findFirstPacketType s.interleavedPackets .audio 0 with
    | none => rw [haf] at hini; cases hini
    | some f =>
      rw [haf] at hini
      have hvmem : v ∈ s.interleavedPackets := findFirstPacketType_mem hfv
      have hfmem : f ∈ s.interleavedPackets := findFirstPacketType_mem haf
      have hvwf : WfPacket v := hwfb v hvmem
      have hfwf : WfPacket f := hwfb f hfmem
      simp only [Option.map_some'] at hini
      cases hini
      refine ⟨⟨sorted_resortList, ?_, ?_, hstop, ?_, hmono, ?_⟩, ?_, ?_, rfl, rfl, hem, rfl⟩
      · intro q' hq'
        rw [resort_interleavedPackets, mem_resortList] at hq'
        obtain ⟨q, hq, rfl⟩ := List.mem_map.mp hq'
        exact ⟨rfl, fun hty => (hwfb q hq).2 hty⟩
      · intro q' hq'
        rw [resort_interleavedPackets, mem_resortList] at hq'
        obtain ⟨q, hq, rfl⟩ := List.mem_map.mp hq'
        have hqwf := hwfb q hq
        have hqb := hbound q hq
        have h1 := hqwf.1
        cases ht : q.type
        · rw [ht] at hqb
          simp only [wmOf] at hqb ⊢
          simp only [applyInterleavedPacketOffset, packet_dts_usec, ht, reduceIte,
            resort_highestVideoTs]
          have h2 := hvwf.1
          omega
        · rw [ht] at hqb
          simp only [wmOf] at hqb ⊢
          simp only [applyInterleavedPacketOffset, packet_dts_usec, ht, reduceIte,
            audio_ne_video, ite_false, if_false,
            hqwf.2 ht, resort_highestAudioTs, List.getD_cons_zero, Nat.zero_lt_one]
          have h2 := hfwf.1
          omega
      · intro hcon
        simp only [resort_receivedAudio, resort_receivedVideo, hflags] at hcon
        exact Bool.noConfusion hcon
      · intro e he
        rw [resort_emitted] at he
        have he' : e ∈ s.emitted.getLast? := he
        rw [hem] at he'
        simp at he'
      · have h2 := hvwf.1
        show s.highestVideoTs - v.dtsUsec + v.dts = s.highestVideoTs
        omega
      · have h2 := hfwf.1
        show s.highestAudioTs - ([f].getD 0 defaultPacket).dtsUsec +
          (if (0 : Nat) < 1 then ([f].getD 0 defaultPacket).dts else s.audioOffsets 0) =
          s.highestAudioTs
        simp only [List.getD_cons_zero, Nat.zero_lt_one, reduceIte]
        omega

/-- One step of `interleave_packets` in the synchronized phase
preserves the invariant, and each watermark-plus-offset sum tracks
the raw timestamp of the most recent packet of that kind. -/
theorem step_started (s : InterleaveState) (p : EncoderPacket)
    (hInv : InterInv s) (hws : (s.receivedAudio && s.receivedVideo) = true)
    (hwfp : WfPacket p)
    (hv : p.type = .video → s.highestVideoTs + s.videoOffset ≤ p.dts)
    (ha : p.type = .audio → s.highestAudioTs + s.audioOffsets 0 ≤ p.dts) :
    InterInv (interleavePackets 1 s p) ∧
    ((interleavePackets 1 s p).highestVideoTs + (interleavePackets 1 s p).videoOffset =
      if p.type = .video then p.dts else s.highestVideoTs + s.videoOffset) ∧
    ((interleavePackets 1 s p).highestAudioTs +
        (interleavePackets 1 s p).audioOffsets 0 =
      if p.type = .audio then p.dts else s.highestAudioTs + s.audioOffsets 0) := by
  have heq := interleavePackets_started_eq s p hws
  set c := applyInterleavedPacketOffset s p with hc
  have hcwf : WfPacket c := ⟨rfl, fun hty => hwfp.2 hty⟩
  have hcu : c.dtsUsec =
      p.dts - (if p.type = .video then s.videoOffset else s.audioOffsets 0) := by
    cases ht : p.type
    · simp only [hc, applyInterleavedPacketOffset, packet_dts_usec, ht, reduceIte]
    · simp only [hc, applyInterleavedPacketOffset, packet_dts_usec, ht, reduceIte,
        audio_ne_video, ite_false, if_false, hwfp.2 ht]
  have hwm : wmOf s c.type ≤ c.dtsUsec := by
    have hct : c.type = p.type := rfl
    rw [hct]
    cases ht : p.type
    · rw [ht] at hcu
      simp only [reduceIte] at hcu
      simp only [wmOf]
      have h1 := hv ht
      omega
    · rw [ht] at hcu
      simp only [audio_ne_video, ite_false, if_false, reduceIte] at hcu
      simp only [wmOf]
      have h1 := ha ht
      omega
  have hflags3 : ((afterInsert s c).receivedAudio && (afterInsert s c).receivedVideo)
      = true := by
    rw [afterInsert_receivedAudio, afterInsert_receivedVideo]
    exact hws
  have hwm3 := afterInsert_wm s c hwm
  have hsend := sendInterleaved_fields (afterInsert s c)
  rw [heq]
  refine ⟨sendInterleaved_inv _ hflags3 (afterInsert_inv s c hInv hcwf hwm), ?_, ?_⟩
  · rw [hsend.1, hsend.2.2.1, hwm3.1, afterInsert_videoOffset]
    have hct : c.type = p.type := rfl
    cases ht : p.type
    · rw [hct, ht, if_pos rfl, if_pos rfl]
      rw [ht] at hcu
      simp only [reduceIte] at hcu
      omega
    · rw [hct, ht, if_neg audio_ne_video, if_neg audio_ne_video]
  · rw [hsend.2.1, hsend.2.2.2.1, hwm3.2, afterInsert_audioOffsets]
    have hct : c.type = p.type := rfl
    cases ht : p.type
    · rw [hct, ht, if_neg video_ne_audio, if_neg video_ne_audio]
    · rw [hct, ht, if_pos rfl, if_pos rfl]
      rw [ht] at hcu
      simp only [audio_ne_video, ite_false, if_false, reduceIte] at hcu
      omega

theorem wmOf_checkReceived (s : InterleaveState) (p : EncoderPacket) (t : EncoderType) :
    wmOf (checkReceived s p) t = wmOf s t := by
  cases t <;> simp [wmOf]

/-- One step of `interleave_packets` in the unsynchronized phase
preserves the invariant with the same watermark-sum bookkeeping. -/
theorem step_unstarted (s : InterleaveState) (p : EncoderPacket)
    (hInv : InterInv s) (hws : (s.receivedAudio && s.receivedVideo) = false)
    (hwfp : WfPacket p)
    (hv : p.type = .video → s.highestVideoTs + s.videoOffset ≤ p.dts)
    (ha : p.type = .audio → s.highestAudioTs + s.audioOffsets 0 ≤ p.dts) :
    InterInv (interleavePackets 1 s p) ∧
    ((interleavePackets 1 s p).highestVideoTs + (interleavePackets 1 s p).videoOffset =
      if p.type = .video then p.dts else s.highestVideoTs + s.videoOffset) ∧
    ((interleavePackets 1 s p).highestAudioTs +
        (interleavePackets 1 s p).audioOffsets 0 =
      if p.type = .audio then p.dts else s.highestAudioTs + s.audioOffsets 0) := by
  have hoff := hInv.phaseA hws
  have heq := interleavePackets_unstarted_eq s p hws
  set s1 := checkReceived s p with hs1
  have hinv1 : InterInv s1 := by
    obtain ⟨hsort, hwfb, hbound, hstop, hphase, hmono, hlast⟩ := hInv
    refine ⟨?_, ?_, ?_, ?_, ?_, ?_, ?_⟩
    · rw [hs1, checkReceived_interleavedPackets]; exact hsort
    · rw [hs1, checkReceived_interleavedPackets]; exact hwfb
    · rw [hs1, checkReceived_interleavedPackets]
      intro q hq
      rw [wmOf_checkReceived]
      exact hbound q hq
    · rw [hs1, checkReceived_stopped]; exact hstop
    · intro _
      rw [hs1, checkReceived_emitted, checkReceived_videoOffset, checkReceived_audioOffsets]
      exact hoff
    · rw [hs1, checkReceived_emitted, hoff.1]; exact List.chain'_nil
    · intro e he
      rw [hs1, checkReceived_emitted, hoff.1] at he
      simp at he
  have hwm1 : wmOf s1 p.type ≤ p.dtsUsec := by
    rw [hs1, wmOf_checkReceived]
    have h1 := hwfp.1
    cases ht : p.type
    · have h2 := hv ht
      have h3 := hoff.2.1
      simp only [wmOf]
      omega
    · have h2 := ha ht
      have h3 := hoff.2.2
      simp only [wmOf]
      omega
  have hinvT : InterInv (afterInsert s1 p) := afterInsert_inv s1 p hinv1 hwfp hwm1
  have hwmT := afterInsert_wm s1 p hwm1
  have ht_em : (afterInsert s1 p).emitted = [] := by
    rw [afterInsert_emitted, hs1, checkReceived_emitted]; exact hoff.1
  have ht_vo : (afterInsert s1 p).videoOffset = 0 := by
    rw [afterInsert_videoOffset, hs1, checkReceived_videoOffset]; exact hoff.2.1
  have ht_ao : (afterInsert s1 p).audioOffsets 0 = 0 := by
    rw [afterInsert_audioOffsets, hs1, checkReceived_audioOffsets]; exact hoff.2.2
  have hsvT : (afterInsert s1 p).highestVideoTs + (afterInsert s1 p).videoOffset =
      (if p.type = .video then p.dts else s.highestVideoTs + s.videoOffset) := by
    rw [hwmT.1, ht_vo]
    have h1 := hwfp.1
    have h3 := hoff.2.1
    cases ht : p.type
    · rw [if_pos rfl, if_pos rfl]; omega
    · rw [if_neg audio_ne_video, if_neg audio_ne_video, hs1, checkReceived_highestVideoTs]
      omega
  have hsaT : (afterInsert s1 p).highestAudioTs + (afterInsert s1 p).audioOffsets 0 =
      (if p.type = .audio then p.dts else s.highestAudioTs + s.audioOffsets 0) := by
    rw [hwmT.2, ht_ao]
    have h1 := hwfp.1
    have h3 := hoff.2.2
    cases ht : p.type
    · rw [if_neg video_ne_audio, if_neg video_ne_audio, hs1, checkReceived_highestAudioTs]
      omega
    · rw [if_pos rfl, if_pos rfl]; omega
  rw [heq]
  by_cases hfl : (s1.receivedAudio && s1.receivedVideo) = true
  · rw [if_pos hfl]
    have hinvu : InterInv (pruneInterleavedPackets (afterInsert s1 p)) :=
      prune_inv _ hinvT
    have hu_em : (pruneInterleavedPackets (afterInsert s1 p)).emitted = [] := by
      rw [prune_emitted]; exact ht_em
    have hu_vo : (pruneInterleavedPackets (afterInsert s1 p)).videoOffset = 0 := by
      rw [prune_videoOffset]; exact ht_vo
    have hu_ao : (pruneInterleavedPackets (afterInsert s1 p)).audioOffsets 0 = 0 := by
      rw [prune_audioOffsets]; exact ht_ao
    have huflags : ((pruneInterleavedPackets (afterInsert s1 p)).receivedAudio &&
        (pruneInterleavedPackets (afterInsert s1 p)).receivedVideo) = true := by
      rw [prune_receivedAudio, prune_receivedVideo,
        afterInsert_receivedAudio, afterInsert_receivedVideo]
      exact hfl
    have husv : (pruneInterleavedPackets (afterInsert s1 p)).highestVideoTs =
        (if p.type = .video then p.dts else s.highestVideoTs + s.videoOffset) := by
      rw [prune_highestVideoTs, ← hsvT, ht_vo]
      omega
    have husa : (pruneInterleavedPackets (afterInsert s1 p)).highestAudioTs =
        (if p.type = .audio then p.dts else s.highestAudioTs + s.audioOffsets 0) := by
      rw [prune_highestAudioTs, ← hsaT, ht_ao]
      omega
    split
    · rename_i s5 hini
      have hti := initialize_true_inv _ s5 hinvu hu_em huflags hini
      have hsend := sendInterleaved_fields (resortInterleavedPackets s5)
      have hrflags : ((resortInterleavedPackets s5).receivedAudio &&
          (resortInterleavedPackets s5).receivedVideo) = true := by
        rw [resort_receivedAudio, resort_receivedVideo, hti.2.2.2.1, hti.2.2.2.2.1]
        exact huflags
      refine ⟨sendInterleaved_inv _ hrflags hti.1, ?_, ?_⟩
      · rw [hsend.1, hsend.2.2.1, resort_highestVideoTs, resort_videoOffset,
          hti.2.1, husv]
      · rw [hsend.2.1, hsend.2.2.2.1, resort_highestAudioTs, resort_audioOffsets,
          hti.2.2.1, husa]
    · rename_i s5 hini
      have hfi := initialize_false_inv 1 _ s5 hinvu hu_em hu_vo hu_ao hini
      refine ⟨hfi.1, ?_, ?_⟩
      · rw [hfi.2.1, hfi.2.2.2.1, husv]; omega
      · rw [hfi.2.2.1, hfi.2.2.2.2, husa]; omega
  · rw [if_neg hfl]
    exact ⟨hinvT, hsvT, hsaT⟩

/-- One step of `interleave_packets`, in either phase. -/
theorem step_any (s : InterleaveState) (p : EncoderPacket)
    (hInv : InterInv s) (hwfp : WfPacket p)
    (hv : p.type = .video → s.highestVideoTs + s.videoOffset ≤ p.dts)
    (ha : p.type = .audio → s.highestAudioTs + s.audioOffsets 0 ≤ p.dts) :
    InterInv (interleavePackets 1 s p) ∧
    ((interleavePackets 1 s p).highestVideoTs + (interleavePackets 1 s p).videoOffset =
      if p.type = .video then p.dts else s.highestVideoTs + s.videoOffset) ∧
    ((interleavePackets 1 s p).highestAudioTs +
        (interleavePackets 1 s p).audioOffsets 0 =
      if p.type = .audio then p.dts else s.highestAudioTs + s.audioOffsets 0) := by
  cases hws : (s.receivedAudio && s.receivedVideo) with
  | true => exact step_started s p hInv hws hwfp hv ha
  | false => exact step_unstarted s p hInv hws hwfp hv ha

/-- Folding a whole arrival sequence through `interleave_packets`
preserves the invariant. -/
theorem runFold_inv :
    ∀ (pkts : List EncoderPacket) (s : InterleaveState), InterInv s →
      Arrivals (s.highestVideoTs + s.videoOffset)
        (s.highestAudioTs + s.audioOffsets 0) pkts →
      InterInv (pkts.foldl (interleavePackets 1) s) := by
  intro pkts
  induction pkts with
  | nil => intro s h _; simpa using h
  | cons p rest ih =>
    intro s h harr
    rw [Arrivals] at harr
    obtain ⟨hwfp, hrest⟩ := harr
    rw [List.foldl_cons]
    cases ht : p.type with
    | video =>
      rw [ht] at hrest
      obtain ⟨hle, hrest2⟩ := hrest
      have hv : p.type = .video → s.highestVideoTs + s.videoOffset ≤ p.dts :=
        fun _ => hle
      have ha : p.type = .audio → s.highestAudioTs + s.audioOffsets 0 ≤ p.dts :=
        fun hcon => (video_ne_audio (ht.symm.trans hcon)).elim
      have step := step_any s p h hwfp hv ha
      have hX : (interleavePackets 1 s p).highestVideoTs +
          (interleavePackets 1 s p).videoOffset = p.dts := by
        rw [step.2.1, if_pos ht]
      have hY : (interleavePackets 1 s p).highestAudioTs +
          (interleavePackets 1 s p).audioOffsets 0 =
          s.highestAudioTs + s.audioOffsets 0 := by
        rw [step.2.2, if_neg (fun hcon => video_ne_audio (ht.symm.trans hcon))]
      exact ih _ step.1 (by rw [hX, hY]; exact hrest2)
    | audio =>
      rw [ht] at hrest
      obtain ⟨hle, hrest2⟩ := hrest
      have hv : p.type = .video → s.highestVideoTs + s.videoOffset ≤ p.dts :=
        fun hcon => (audio_ne_video (ht.symm.trans hcon)).elim
      have ha : p.type = .audio → s.highestAudioTs + s.audioOffsets 0 ≤ p.dts :=
        fun _ => hle
      have step := step_any s p h hwfp hv ha
      have hX : (interleavePackets 1 s p).highestVideoTs +
          (interleavePackets 1 s p).videoOffset =
          s.highestVideoTs + s.videoOffset := by
        rw [step.2.1, if_neg (fun hcon => audio_ne_video (ht.symm.trans hcon))]
      have hY : (interleavePackets 1 s p).highestAudioTs +
          (interleavePackets 1 s p).audioOffsets 0 = p.dts := by
        rw [step.2.2, if_pos ht]
      exact ih _ step.1 (by rw [hX, hY]; exact hrest2)

/-- Per-stream monotone timestamps, seeded below by `rv` / `ra`,
satisfy the arrival discipline. -/
theorem arrivals_of_chains :
    ∀ (pkts : List EncoderPacket) (rv ra : Int),
      (∀ p ∈ pkts, WfPacket p) →
      List.Chain' (· ≤ ·)
        (rv :: (pkts.filter (fun q => q.type == .video)).map EncoderPacket.dts) →
      List.Chain' (· ≤ ·)
        (ra :: (pkts.filter (fun q => q.type == .audio)).map EncoderPacket.dts) →
      Arrivals rv ra pkts := by
  intro pkts
  induction pkts with
  | nil => intro rv ra _ _ _; trivial
  | cons p rest ih =>
    intro rv ra hwf hcv hca
    rw [Arrivals]
    refine ⟨hwf p (List.mem_cons_self _ _), ?_⟩
    cases ht : p.type with
    | video =>
      have hcv' : List.Chain' (· ≤ ·) (rv :: p.dts ::
          (rest.filter (fun q => q.type == .video)).map EncoderPacket.dts) := by
        simpa [List.filter_cons, ht] using hcv
      have hca' : List.Chain' (· ≤ ·) (ra ::
          (rest.filter (fun q => q.type == .audio)).map EncoderPacket.dts) := by
        simpa [List.filter_cons, ht] using hca
      obtain ⟨h1, h2⟩ := List.chain'_cons.mp hcv'
      exact ⟨h1, ih p.dts ra (fun q hq => hwf q (List.mem_cons_of_mem _ hq)) h2 hca'⟩
    | audio =>
      have hcv' : List.Chain' (· ≤ ·) (rv ::
          (rest.filter (fun q => q.type == .video)).map EncoderPacket.dts) := by
        simpa [List.filter_cons, ht] using hcv
      have hca' : List.Chain' (· ≤ ·) (ra :: p.dts ::
          (rest.filter (fun q => q.type == .audio)).map EncoderPacket.dts) := by
        simpa [List.filter_cons, ht] using hca
      obtain ⟨h1, h2⟩ := List.chain'_cons.mp hca'
      exact ⟨h1, ih rv p.dts (fun q hq => hwf q (List.mem_cons_of_mem _ hq)) hcv' h2⟩

theorem initial_inv : InterInv initialInterleaveState := by
  refine ⟨List.Pairwise.nil, ?_, ?_, rfl, fun _ => ⟨rfl, rfl, rfl⟩, List.chain'_nil, ?_⟩
  · intro q hq; simp [initialInterleaveState] at hq
  · intro q hq; simp [initialInterleaveState] at hq
  · intro e he; simp [initialInterleaveState] at he

/-- C1 (counterexample): the claim "for every sequence of calls to
interleave_packets within one activation, with arbitrary and possibly
out-of-order timestamps across streams, the packets passed downstream
are non-decreasing in corrected microsecond dts" is false on the
code.  Three concrete activations emit a strictly decreasing pair:
(i) one audio track, each stream's timestamps non-decreasing, but
negative raw timestamps (the zero-initialized high-water-marks are
then inflated by the offset correction); the emitted corrected
timestamps are 0, 0, 5, 2.  (ii) one audio track, non-negative
timestamps, video delivered out of dts order (… 30 then 25); emitted
0, 0, 20, 15.  (iii) two audio tracks, all streams non-decreasing and
non-negative, the second track lagging; emitted 0, 0, 0, 50, 5. -/
theorem C1_counterexample :
    emittedUsec (runInterleave 1
      [vPkt (-50), aPkt 0 (-40), vPkt (-45), vPkt (-42), aPkt 0 (-38)]) = [0, 0, 5, 2] ∧
    usecMonotone [0, 0, 5, 2] = false ∧
    emittedUsec (runInterleave 1
      [vPkt 10, aPkt 0 20, vPkt 30, aPkt 0 50, aPkt 0 60, aPkt 0 70, vPkt 25])
      = [0, 0, 20, 15] ∧
    usecMonotone [0, 0, 20, 15] = false ∧
    emittedUsec (runInterleave 2
      [vPkt 0, aPkt 0 0, aPkt 1 0, aPkt 0 100, vPkt 50, vPkt 60, vPkt 70, aPkt 1 5])
      = [0, 0, 0, 50, 5] ∧
    usecMonotone [0, 0, 0, 50, 5] = false := by
  decide

/-- C1 (amended): for a single-audio-track activation in which every
packet carries non-negative timestamps (with dts in microseconds, so
dtsUsec = dts) and each stream — the video stream and the audio
stream — delivers packets in non-decreasing dts order, the sequence
of packets passed downstream through the driver's `encoded_packet`
callback is non-decreasing in corrected microsecond decode timestamp:
the earliest-buffered packet is released only when the opposing
kind's high-water-mark strictly exceeds its timestamp. -/
theorem C1_interleaver_monotonic (pkts : List EncoderPacket)
    (hwf : ∀ p ∈ pkts,
      p.dtsUsec = p.dts ∧ 0 ≤ p.dts ∧ (p.type = .audio → p.trackIdx = 0))
    (hvb : usecMonotone
      ((pkts.filter (fun q => q.type == .video)).map EncoderPacket.dts) = true)
    (hab : usecMonotone
      ((pkts.filter (fun q => q.type == .audio)).map EncoderPacket.dts) = true) :
    usecMonotone (emittedUsec (runInterleave 1 pkts)) = true := by
  have hv := (usecMonotone_iff_chain' _).mp hvb
  have ha := (usecMonotone_iff_chain' _).mp hab
  rw [emittedUsec, usecMonotone_iff_chain', List.chain'_map]
  have hwf' : ∀ p ∈ pkts, WfPacket p :=
    fun p hp => ⟨(hwf p hp).1, (hwf p hp).2.2⟩
  have hhead : ∀ (t : EncoderType) (b : Int),
      b ∈ ((pkts.filter (fun q => q.type == t)).map EncoderPacket.dts).head? → 0 ≤ b := by
    intro t b hb
    have hb' := List.mem_of_mem_head? hb
    obtain ⟨q, hq, rfl⟩ := List.mem_map.mp hb'
    exact (hwf q (List.mem_of_mem_filter hq)).2.1
  have hcv : List.Chain' (· ≤ ·)
      ((0 : Int) :: (pkts.filter (fun q => q.type == .video)).map EncoderPacket.dts) :=
    List.chain'_cons'.mpr ⟨hhead .video, hv⟩
  have hca : List.Chain' (· ≤ ·)
      ((0 : Int) :: (pkts.filter (fun q => q.type == .audio)).map EncoderPacket.dts) :=
    List.chain'_cons'.mpr ⟨hhead .audio, ha⟩
  have harr : Arrivals 0 0 pkts := arrivals_of_chains pkts 0 0 hwf' hcv hca
  have hfinal := runFold_inv pkts initialInterleaveState initial_inv
    (by show Arrivals (0 + 0) (0 + 0) pkts; norm_num; exact harr)
  exact hfinal.mono

/-- C1 (witness): the amended theorem applied to the concrete
activation V@0, A@5, V@10, A@15. -/
theorem C1_interleaver_monotonic_witness :
    (∀ p ∈ [vPkt 0, aPkt 0 5, vPkt 10, aPkt 0 15],
      p.dtsUsec = p.dts ∧ 0 ≤ p.dts ∧ (p.type = .audio → p.trackIdx = 0)) ∧
    usecMonotone
      (([vPkt 0, aPkt 0 5, vPkt 10, aPkt 0 15].filter
        (fun q => q.type == .video)).map EncoderPacket.dts) = true ∧
    usecMonotone
      (([vPkt 0, aPkt 0 5, vPkt 10, aPkt 0 15].filter
        (fun q => q.type == .audio)).map EncoderPacket.dts) = true ∧
    usecMonotone
      (emittedUsec (runInterleave 1 [vPkt 0, aPkt 0 5, vPkt 10, aPkt 0 15])) = true :=
  ⟨by decide, by decide, by decide,
    C1_interleaver_monotonic [vPkt 0, aPkt 0 5, vPkt 10, aPkt 0 15]
      (by decide) (by decide) (by decide)⟩

/-! ## Activation reset (`hook_data_capture`, encoded path) -/

/-- `hook_data_capture`, encoded path: the activation-start reset of
the interleaver state.  `free_packets` frees every buffered packet
and empties the buffer.  Note the offset-clearing loop in the C
source reads `for (size_t i = 0; i < MAX_AUDIO_MIXES; i++)
output->audio_offsets[0] = 0;` — the body writes index 0 on every
iteration, so only track 0's audio offset is cleared. -/
def hookDataCaptureReset (s : InterleaveState) : InterleaveState :=
  { s with
    receivedAudio := false
    receivedVideo := false
    highestAudioTs := 0
    highestVideoTs := 0
    videoOffset := 0
    audioOffsets := fun j => if j = 0 then 0 else s.audioOffsets j
    interleavedPackets := [] }

/-- An interleaver state carrying leftovers of a previous activation:
a buffered packet, set flags, nonzero high-water-marks and time
origins, among them an audio offset of 7 on track index 1. -/
def staleOutput : InterleaveState where
  interleavedPackets := [vPkt 3]
  receivedVideo := true
  receivedAudio := true
  highestAudioTs := 11
  highestVideoTs := 12
  videoOffset := 13
  audioOffsets := fun j => if j = 1 then 7 else 0
  totalFrames := 5
  stopped := false
  emitted := []

/-- C7: the claim says the reset before the next activation zeroes
"the audio offset of every track index".  The code clears the packet
buffer, both received flags, both high-water-marks, the video offset
and the track-0 audio offset — but a stale audio offset of a track
index ≥ 1 (here, 7 on track 1, left over from a previous activation)
survives the reset, because the loop body writes `audio_offsets[0]`
instead of `audio_offsets[i]`. -/
theorem C7_reset_bug :
    (hookDataCaptureReset staleOutput).interleavedPackets = [] ∧
    (hookDataCaptureReset staleOutput).receivedVideo = false ∧
    (hookDataCaptureReset staleOutput).receivedAudio = false ∧
    (hookDataCaptureReset staleOutput).highestAudioTs = 0 ∧
    (hookDataCaptureReset staleOutput).highestVideoTs = 0 ∧
    (hookDataCaptureReset staleOutput).videoOffset = 0 ∧
    (hookDataCaptureReset staleOutput).audioOffsets 0 = 0 ∧
    (hookDataCaptureReset staleOutput).audioOffsets 1 = 7 := by
  decide

/-! ## Reconnect state machine (obs-output.c) -/

/-- Stop codes.  obs-output.h is not among the provided sources; the
code taxonomy is modelled from spec §7 ("success, bad-path,
connect-failed, invalid-stream, generic-error, and disconnected"). -/
inductive StopCode where
  | success
  | badPath
  | connectFailed
  | invalidStream
  | error
  | disconnected
deriving DecidableEq, Repr

/-- Events emitted by the reconnect machinery: a terminating `stop`
signal carrying a code, or a `reconnect` signal carrying the wait
duration of the retry thread just spawned. -/
inductive OutEvent where
  | stop (code : StopCode)
  | reconnect (timeoutSec : Int)
deriving DecidableEq, Repr

/-- Reconnect-related state of `struct obs_output` (declared in
obs-internal.h, which is not among the provided sources; fields
follow the spec's ReconnectState data model §3). -/
structure ReconnectSt where
  active : Bool
  reconnecting : Bool
  reconnectRetrySec : Int
  reconnectRetryMax : Nat
  reconnectRetries : Nat
  reconnectRetryCurSec : Int
deriving DecidableEq, Repr

/-- State after `obs_output_create`: zero-allocated, then
`reconnect_retry_sec = 2` and `reconnect_retry_max = 20`. -/
def createdOutput : ReconnectSt where
  active := false
  reconnecting := false
  reconnectRetrySec := 2
  reconnectRetryMax := 20
  reconnectRetries := 0
  reconnectRetryCurSec := 0

/-- `output_reconnect`.  Thread spawning always succeeds in this
model (the `pthread_create < 0` fallback is not taken), and the
spawned cancellable wait is represented by the emitted `reconnect`
event carrying `reconnect_retry_cur_sec`. -/
def outputReconnect (s : ReconnectSt) : ReconnectSt × OutEvent :=
  let s := if !s.reconnecting then
      { s with reconnectRetryCurSec := s.reconnectRetrySec, reconnectRetries := 0 }
    else s
  if s.reconnectRetries ≥ s.reconnectRetryMax then
    ({ s with reconnecting := false }, .stop .disconnected)
  else
    let s := if !s.reconnecting then { s with reconnecting := true } else s
    let s := if s.reconnectRetries ≠ 0 then
        { s with reconnectRetryCurSec := s.reconnectRetryCurSec * 2 }
      else s
    let s := { s with reconnectRetries := s.reconnectRetries + 1 }
    (s, .reconnect s.reconnectRetryCurSec)

/-- `obs_output_end_data_capture`, reduced to its effect on the
lifecycle flag: a no-op when not active, otherwise clears `active`
(the encoder/raw unhooking acts on the interleaver model above). -/
def obsOutputEndDataCapture (s : ReconnectSt) : ReconnectSt :=
  if !s.active then s else { s with active := false }

/-- `obs_output_signal_stop`: end data capture, then either re-enter
the reconnect machine (when already reconnecting with a non-success
code, or on a disconnection) or emit the terminating stop signal. -/
def obsOutputSignalStop (s : ReconnectSt) (code : StopCode) : ReconnectSt × OutEvent :=
  let s := obsOutputEndDataCapture s
  if (s.reconnecting = true ∧ code ≠ .success) ∨ code = .disconnected then
    outputReconnect s
  else
    (s, .stop code)

/-- `obs_output_active`. -/
def obs_output_active : Option ReconnectSt → Bool
  | none => false
  | some s => s.active || s.reconnecting

/-- Feed `n` consecutive disconnect failures through
`obs_output_signal_stop`, collecting the emitted events. -/
def simulateFailures : Nat → ReconnectSt → ReconnectSt × List OutEvent
  | 0, s => (s, [])
  | n + 1, s =>
    let r := obsOutputSignalStop s .disconnected
    let rest := simulateFailures n r.1
    (rest.1, r.2 :: rest.2)

@[simp] theorem endDataCapture_reconnecting (s : ReconnectSt) :
    (obsOutputEndDataCapture s).reconnecting = s.reconnecting := by
  rw [obsOutputEndDataCapture]; split <;> rfl

@[simp] theorem endDataCapture_retries (s : ReconnectSt) :
    (obsOutputEndDataCapture s).reconnectRetries = s.reconnectRetries := by
  rw [obsOutputEndDataCapture]; split <;> rfl

@[simp] theorem endDataCapture_curSec (s : ReconnectSt) :
    (obsOutputEndDataCapture s).reconnectRetryCurSec = s.reconnectRetryCurSec := by
  rw [obsOutputEndDataCapture]; split <;> rfl

@[simp] theorem endDataCapture_retryMax (s : ReconnectSt) :
    (obsOutputEndDataCapture s).reconnectRetryMax = s.reconnectRetryMax := by
  rw [obsOutputEndDataCapture]; split <;> rfl

@[simp] theorem endDataCapture_retrySec (s : ReconnectSt) :
    (obsOutputEndDataCapture s).reconnectRetrySec = s.reconnectRetrySec := by
  rw [obsOutputEndDataCapture]; split <;> rfl

theorem endDataCapture_active (s : ReconnectSt) :
    (obsOutputEndDataCapture s).active = false ∨
    (obsOutputEndDataCapture s).active = s.active := by
  rw [obsOutputEndDataCapture]; split
  · right; rfl
  · left; rfl

theorem outputReconnect_retrying (s : ReconnectSt) (hrec : s.reconnecting = true) :
    outputReconnect s =
      (if s.reconnectRetries ≥ s.reconnectRetryMax then
        ({ s with reconnecting := false }, .stop .disconnected)
      else if s.reconnectRetries ≠ 0 then
        ({ s with
            reconnectRetryCurSec := s.reconnectRetryCurSec * 2
            reconnectRetries := s.reconnectRetries + 1 },
         .reconnect (s.reconnectRetryCurSec * 2))
      else
        ({ s with reconnectRetries := s.reconnectRetries + 1 },
         .reconnect s.reconnectRetryCurSec)) := by
  rw [outputReconnect]
  simp only [hrec, Bool.not_true, Bool.false_eq_true, if_false, ite_false]
  split_ifs <;> simp [hrec]

theorem outputReconnect_fresh (s : ReconnectSt) (hrec : s.reconnecting = false)
    (hmax : 0 < s.reconnectRetryMax) :
    outputReconnect s =
      ({ s with
          reconnecting := true
          reconnectRetries := 1
          reconnectRetryCurSec := s.reconnectRetrySec },
       .reconnect s.reconnectRetrySec) := by
  rw [outputReconnect]
  simp only [hrec, Bool.not_false, if_true, ite_true]
  rw [if_neg (by simp only [ge_iff_le, Nat.not_le]; exact hmax)]
  simp [hrec]

/-- C2: with the default base delay of 2 seconds and default maximum
of 20 retries set by `obs_output_create`, the first five retry
attempts wait 2, 4, 8, 16 and 32 seconds (the backoff doubles on
every retry after the first); after 20 failures the retry count has
reached the maximum, and the 21st failure emits only the terminating
stop event with the disconnected code — no reconnect wait is spawned
— leaving the reconnecting flag cleared. -/
theorem C2_reconnect_backoff :
    (simulateFailures 5 createdOutput).2 =
      [.reconnect 2, .reconnect 4, .reconnect 8, .reconnect 16, .reconnect 32] ∧
    (simulateFailures 20 createdOutput).1.reconnectRetries = 20 ∧
    (simulateFailures 21 createdOutput).2 =
      (simulateFailures 20 createdOutput).2 ++ [.stop .disconnected] ∧
    (simulateFailures 21 createdOutput).1.reconnecting = false := by
  decide

/-- C4 (counterexample): with the output already in the Retrying
state (reconnecting, one retry outstanding, current backoff 2 s), a
further failure signal is not a no-op: the retry count advances from
1 to 2, the backoff doubles from 2 to 4 seconds, and another retry
wait is spawned (the `reconnect 4` event). -/
theorem C4_counterexample :
    (obsOutputSignalStop ⟨false, true, 2, 20, 1, 2⟩ .error).1.reconnectRetries = 2 ∧
    (obsOutputSignalStop ⟨false, true, 2, 20, 1, 2⟩ .error).1.reconnectRetryCurSec = 4 ∧
    (obsOutputSignalStop ⟨false, true, 2, 20, 1, 2⟩ .error).2 = .reconnect 4 := by
  decide

/-- C4 (amended): a failure signalled while the output is already in
the Retrying state does not reset the retry state but advances it as
the next retry attempt: while the retry budget remains, the current
backoff doubles, the retry count increments, and another retry wait
is spawned with the doubled backoff; once the retry count has reached
the maximum, the failure instead emits the terminating stop event
with the disconnected code and clears the reconnecting flag. -/
theorem C4_failure_while_retrying (s : ReconnectSt) (code : StopCode)
    (hrec : s.reconnecting = true) (hcode : code ≠ .success)
    (hretr : 1 ≤ s.reconnectRetries) :
    (s.reconnectRetries < s.reconnectRetryMax →
      (obsOutputSignalStop s code).1.reconnectRetries = s.reconnectRetries + 1 ∧
      (obsOutputSignalStop s code).1.reconnectRetryCurSec =
        s.reconnectRetryCurSec * 2 ∧
      (obsOutputSignalStop s code).2 = .reconnect (s.reconnectRetryCurSec * 2) ∧
      (obsOutputSignalStop s code).1.reconnecting = true) ∧
    (s.reconnectRetryMax ≤ s.reconnectRetries →
      (obsOutputSignalStop s code).2 = .stop .disconnected ∧
      (obsOutputSignalStop s code).1.reconnecting = false) := by
  have hrec' : (obsOutputEndDataCapture s).reconnecting = true := by
    rw [endDataCapture_reconnecting]; exact hrec
  have heq : obsOutputSignalStop s code =
      outputReconnect (obsOutputEndDataCapture s) := by
    rw [obsOutputSignalStop, if_pos (Or.inl ⟨hrec', hcode⟩)]
  rw [heq, outputReconnect_retrying _ hrec']
  constructor
  · intro hlt
    rw [if_neg (by
      simp only [ge_iff_le, endDataCapture_retries, endDataCapture_retryMax, Nat.not_le]
      exact hlt)]
    rw [if_pos (by simp only [ne_eq, endDataCapture_retries]; omega)]
    exact ⟨by simp only [endDataCapture_retries],
      by simp only [endDataCapture_curSec],
      by simp only [endDataCapture_curSec],
      by simp only [hrec']⟩
  · intro hge
    rw [if_pos (by
      simp only [ge_iff_le, endDataCapture_retries, endDataCapture_retryMax]
      exact hge)]
    exact ⟨rfl, rfl⟩

/-- C4 (amended, witness): the amended theorem at the concrete
Retrying state with one retry outstanding and 2 s backoff. -/
theorem C4_failure_while_retrying_witness :
    ((⟨false, true, 2, 20, 1, 2⟩ : ReconnectSt).reconnecting = true) ∧
    (StopCode.error ≠ .success) ∧
    (1 ≤ (⟨false, true, 2, 20, 1, 2⟩ : ReconnectSt).reconnectRetries) ∧
    (((⟨false, true, 2, 20, 1, 2⟩ : ReconnectSt).reconnectRetries <
        (⟨false, true, 2, 20, 1, 2⟩ : ReconnectSt).reconnectRetryMax →
      (obsOutputSignalStop ⟨false, true, 2, 20, 1, 2⟩ .error).1.reconnectRetries =
        (⟨false, true, 2, 20, 1, 2⟩ : ReconnectSt).reconnectRetries + 1 ∧
      (obsOutputSignalStop ⟨false, true, 2, 20, 1, 2⟩ .error).1.reconnectRetryCurSec =
        (⟨false, true, 2, 20, 1, 2⟩ : ReconnectSt).reconnectRetryCurSec * 2 ∧
      (obsOutputSignalStop ⟨false, true, 2, 20, 1, 2⟩ .error).2 =
        .reconnect ((⟨false, true, 2, 20, 1, 2⟩ : ReconnectSt).reconnectRetryCurSec * 2) ∧
      (obsOutputSignalStop ⟨false, true, 2, 20, 1, 2⟩ .error).1.reconnecting = true) ∧
    ((⟨false, true, 2, 20, 1, 2⟩ : ReconnectSt).reconnectRetryMax ≤
        (⟨false, true, 2, 20, 1, 2⟩ : ReconnectSt).reconnectRetries →
      (obsOutputSignalStop ⟨false, true, 2, 20, 1, 2⟩ .error).2 = .stop .disconnected ∧
      (obsOutputSignalStop ⟨false, true, 2, 20, 1, 2⟩ .error).1.reconnecting = false)) :=
  ⟨by decide, by decide, by decide,
    C4_failure_while_retrying ⟨false, true, 2, 20, 1, 2⟩ .error
      (by decide) (by decide) (by decide)⟩

/-- C10: for a null output `obs_output_active` returns false; for an
output that was actively capturing and then suffers a disconnection,
data capture is ended (`active` cleared) yet `obs_output_active`
still returns true for the whole pending reconnect episode, because
the reconnecting flag is set and the function returns
`active || reconnecting`. -/
theorem C10_active_during_reconnect (s : ReconnectSt)
    (hact : s.active = true) (hrec : s.reconnecting = false)
    (hmax : 0 < s.reconnectRetryMax) :
    obs_output_active none = false ∧
    (obsOutputSignalStop s .disconnected).1.active = false ∧
    obs_output_active (some (obsOutputSignalStop s .disconnected).1) = true := by
  have hrec' : (obsOutputEndDataCapture s).reconnecting = false := by
    rw [endDataCapture_reconnecting]; exact hrec
  have hmax' : 0 < (obsOutputEndDataCapture s).reconnectRetryMax := by
    rw [endDataCapture_retryMax]; exact hmax
  have heq : obsOutputSignalStop s .disconnected =
      outputReconnect (obsOutputEndDataCapture s) := by
    rw [obsOutputSignalStop, if_pos (Or.inr rfl)]
  have hactend : (obsOutputEndDataCapture s).active = false := by
    rw [obsOutputEndDataCapture, hact]
    rfl
  refine ⟨rfl, ?_, ?_⟩ <;>
    rw [heq, outputReconnect_fresh _ hrec' hmax']
  · exact hactend
  · simp [obs_output_active, hactend]

/-- C10 (witness): the theorem at a freshly created output that has
begun capturing. -/
theorem C10_active_during_reconnect_witness :
    ((⟨true, false, 2, 20, 0, 0⟩ : ReconnectSt).active = true) ∧
    ((⟨true, false, 2, 20, 0, 0⟩ : ReconnectSt).reconnecting = false) ∧
    (0 < (⟨true, false, 2, 20, 0, 0⟩ : ReconnectSt).reconnectRetryMax) ∧
    (obs_output_active none = false ∧
      (obsOutputSignalStop ⟨true, false, 2, 20, 0, 0⟩ .disconnected).1.active = false ∧
      obs_output_active
        (some (obsOutputSignalStop ⟨true, false, 2, 20, 0, 0⟩ .disconnected).1) = true) :=
  ⟨by decide, by decide, by decide,
    C10_active_during_reconnect ⟨true, false, 2, 20, 0, 0⟩
      (by decide) (by decide) (by decide)⟩

/-! ## Level and fader math (obs-audio-controls.c)

Float values are embedded as exact reals; a dB value is an `EReal`,
whose `⊥` plays the role of the float `-INFINITY` (the code compares
against and stores `-INFINITY` exactly).  The embedding is
noncomputable because the conversions are transcendental. -/

/-- `mul_to_db`: -∞ at zero amplitude, else 20·log10(mul). -/
noncomputable def mul_to_db (mul : ℝ) : EReal :=
  if mul = 0 then ⊥ else ((20 * Real.logb 10 mul : ℝ) : EReal)

/-- `db_to_mul`: 0 at -∞, else 10^(db/20).  (A `⊤` argument, the
float +INFINITY, never arises in the verified paths; `EReal.toReal`
sends it to 0 where the float arithmetic would give +INFINITY.) -/
noncomputable def db_to_mul (db : EReal) : ℝ :=
  if db = ⊥ then 0 else (10 : ℝ) ^ (db.toReal / 20)

/-- `cbrtf`, used by the cubic fader on positive amplitudes only
(real cube root via `rpow`; negative arguments, on which the C cube
root would be negative, do not occur in these paths). -/
noncomputable def cbrtf (x : ℝ) : ℝ := x ^ ((1 : ℝ) / 3)

/-- `cubic_def_to_db`. -/
noncomputable def cubic_def_to_db (d : ℝ) : EReal :=
  if d = 1 then 0
  else if d ≤ 0 then ⊥
  else mul_to_db (d * d * d)

/-- `cubic_db_to_def`. -/
noncomputable def cubic_db_to_def (db : EReal) : ℝ :=
  if db = 0 then 1
  else if db = ⊥ then 0
  else cbrtf (db_to_mul db)

/-- `iec_def_to_db`: the seven-segment broadcast curve. -/
noncomputable def iec_def_to_db (d : ℝ) : EReal :=
  if d = 1 then 0
  else if d ≤ 0 then ⊥
  else if d ≥ 0.75 then (((d - 1) / 0.25 * 9 : ℝ) : EReal)
  else if d ≥ 0.5 then (((d - 0.75) / 0.25 * 11 - 9 : ℝ) : EReal)
  else if d ≥ 0.3 then (((d - 0.5) / 0.2 * 10 - 20 : ℝ) : EReal)
  else if d ≥ 0.15 then (((d - 0.3) / 0.15 * 10 - 30 : ℝ) : EReal)
  else if d ≥ 0.075 then (((d - 0.15) / 0.075 * 10 - 40 : ℝ) : EReal)
  else if d ≥ 0.025 then (((d - 0.075) / 0.05 * 10 - 50 : ℝ) : EReal)
  else if d ≥ 0.001 then (((d - 0.025) / 0.025 * 90 - 60 : ℝ) : EReal)
  else ⊥

/-- `iec_db_to_def`.  The interior arithmetic acts on the real part
of the finite dB value. -/
noncomputable def iec_db_to_def (db : EReal) : ℝ :=
  if db = 0 then 1
  else if db = ⊥ then 0
  else
    let x := db.toReal
    if db ≥ ((-9 : ℝ) : EReal) then (x + 9) / 9 * 0.25 + 0.75
    else if db ≥ ((-20 : ℝ) : EReal) then (x + 20) / 11 * 0.25 + 0.5
    else if db ≥ ((-30 : ℝ) : EReal) then (x + 30) / 10 * 0.2 + 0.3
    else if db ≥ ((-40 : ℝ) : EReal) then (x + 40) / 10 * 0.15 + 0.15
    else if db ≥ ((-50 : ℝ) : EReal) then (x + 50) / 10 * 0.075 + 0.075
    else if db ≥ ((-60 : ℝ) : EReal) then (x + 60) / 10 * 0.05 + 0.025
    else if db ≥ ((-114 : ℝ) : EReal) then (x + 150) / 90 * 0.025
    else 0

/-- LOG_OFFSET_DB. -/
def logOffsetDb : ℝ := 6

/-- LOG_RANGE_DB. -/
def logRangeDb : ℝ := 96

/-- LOG_OFFSET_VAL: the float literal hardcoded in the source
(an approximation of -log10(6)). -/
noncomputable def logOffsetVal : ℝ := -0.77815125038364363

/-- LOG_RANGE_VAL: the float literal hardcoded in the source
(an approximation of -log10(102)). -/
noncomputable def logRangeVal : ℝ := -2.00860017176191756

/-- `log_def_to_db`. -/
noncomputable def log_def_to_db (d : ℝ) : EReal :=
  if d ≥ 1 then 0
  else if d ≤ 0 then ⊥
  else ((-(logRangeDb + logOffsetDb) *
      ((logRangeDb + logOffsetDb) / logOffsetDb) ^ (-d) + logOffsetDb : ℝ) : EReal)

/-- `log_db_to_def`. -/
noncomputable def log_db_to_def (db : EReal) : ℝ :=
  if db ≥ (0 : EReal) then 1
  else if db ≤ ((-96 : ℝ) : EReal) then 0
  else (-Real.logb 10 (-db.toReal + logOffsetDb) - logRangeVal) /
    (logOffsetVal - logRangeVal)

/-- `enum obs_fader_type`. -/
inductive FaderType where
  | cubic
  | iec
  | logarithmic
deriving DecidableEq, Repr

/-- FaderState (spec §3): `struct obs_fader` without the lock and
signal-handler plumbing (declared in obs-audio-controls.c itself).
The attached source is represented by its current linear volume
(`sourceVol = none` when unattached); `obs_source_set_volume` stores
into it. -/
structure ObsFader where
  defToDb : ℝ → EReal
  dbToDef : EReal → ℝ
  curDb : EReal
  maxDb : EReal
  minDb : EReal
  ignoreNextSignal : Bool
  sourceVol : Option ℝ

/-- `obs_fader_create`: zero-allocated (`cur_db = 0`, flag clear, no
source), then the per-type conversion functions and clamp bounds. -/
noncomputable def obs_fader_create : FaderType → ObsFader
  | .cubic =>
    { defToDb := cubic_def_to_db, dbToDef := cubic_db_to_def,
      curDb := 0, maxDb := 0, minDb := ⊥,
      ignoreNextSignal := false, sourceVol := none }
  | .iec =>
    { defToDb := iec_def_to_db, dbToDef := iec_db_to_def,
      curDb := 0, maxDb := 0, minDb := ⊥,
      ignoreNextSignal := false, sourceVol := none }
  | .logarithmic =>
    { defToDb := log_def_to_db, dbToDef := log_db_to_def,
      curDb := 0, maxDb := 0, minDb := ((-96 : ℝ) : EReal),
      ignoreNextSignal := false, sourceVol := none }

/-- `obs_fader_set_db` (non-null fader): clamp, mark the next signal
self-originated, push the linear gain to the attached source, and
return `!clamped`. -/
noncomputable def obs_fader_set_db (f : ObsFader) (db : EReal) : ObsFader × Bool :=
  let cur1 := db
  let r1 := if cur1 > f.maxDb then ((f.maxDb, true) : EReal × Bool) else (cur1, false)
  let r2 := if r1.1 < f.minDb then (((⊥ : EReal), true) : EReal × Bool) else r1
  let f1 := { f with curDb := r2.1, ignoreNextSignal := true }
  let mul := db_to_mul f1.curDb
  let f2 := match f1.sourceVol with
    | some _ => { f1 with sourceVol := some mul }
    | none => f1
  (f2, !r2.2)

/-- `obs_fader_set_deflection`: defined through `set_db` via the
fader's deflection-to-dB conversion — no independent logic. -/
noncomputable def obs_fader_set_deflection (f : ObsFader) (deflection : ℝ) :
    ObsFader × Bool :=
  obs_fader_set_db f (f.defToDb deflection)

/-- `obs_fader_set_mul`: defined through `set_db`. -/
noncomputable def obs_fader_set_mul (f : ObsFader) (mul : ℝ) : ObsFader × Bool :=
  obs_fader_set_db f (mul_to_db mul)

/-- `obs_fader_attach_source` (both arguments non-null): detach any
previous binding, subscribe (plumbing not modelled), record the
source and initialize `cur_db` from the source's current volume. -/
noncomputable def obs_fader_attach_source (f : ObsFader) (sourceVolume : ℝ) : ObsFader :=
  { f with sourceVol := some sourceVolume, curDb := mul_to_db sourceVolume }

/-- `fader_source_volume_changed`: a gain-change notification from
the bound source; consumes the self-originated mark, otherwise
updates `cur_db` and emits `volume_changed` with the new dB value
(returned as the optional event payload). -/
noncomputable def fader_source_volume_changed (f : ObsFader) (volume : ℝ) :
    ObsFader × Option EReal :=
  if f.ignoreNextSignal then ({ f with ignoreNextSignal := false }, none)
  else
    let db := mul_to_db volume
    ({ f with curDb := db }, some db)

/-- Full characterization of `obs_fader_set_db`: the stored value,
the returned Boolean, the self-originated mark, the untouched clamp
bounds, and the pushed gain. -/
theorem set_db_spec (f : ObsFader) (db : EReal) :
    (obs_fader_set_db f db).1.curDb =
      (if f.maxDb < db then
        (if f.maxDb < f.minDb then ⊥ else f.maxDb)
      else if db < f.minDb then ⊥ else db) ∧
    (obs_fader_set_db f db).2 =
      !(decide (f.maxDb < db) ||
        decide ((if f.maxDb < db then f.maxDb else db) < f.minDb)) ∧
    (obs_fader_set_db f db).1.ignoreNextSignal = true ∧
    (obs_fader_set_db f db).1.minDb = f.minDb ∧
    (obs_fader_set_db f db).1.maxDb = f.maxDb ∧
    (f.sourceVol = none → (obs_fader_set_db f db).1.sourceVol = none) ∧
    (∀ v, f.sourceVol = some v →
      (obs_fader_set_db f db).1.sourceVol =
        some (db_to_mul (obs_fader_set_db f db).1.curDb)) := by
  rcases hsv : f.sourceVol with _ | v <;>
    by_cases h1 : f.maxDb < db
  · by_cases h2 : f.maxDb < f.minDb <;>
      simp [obs_fader_set_db, hsv, h1, h2]
  · by_cases h3 : db < f.minDb <;>
      simp [obs_fader_set_db, hsv, h1, h3]
  · by_cases h2 : f.maxDb < f.minDb <;>
      simp [obs_fader_set_db, hsv, h1, h2]
  · by_cases h3 : db < f.minDb <;>
      simp [obs_fader_set_db, hsv, h1, h3]

/-- C3 (counterexample): for a cubic fader (max_db = 0) and input
5 dB, the value is clamped (0 is stored, not 5), yet the function
returns `false` — the Boolean is `!clamped`, reporting that the value
was set *without* clamping, not "whether clamping occurred" as the
claim states (which would require `true` here). -/
theorem C3_counterexample :
    (obs_fader_set_db (obs_fader_create .cubic) ((5 : ℝ) : EReal)).2 = false ∧
    (obs_fader_set_db (obs_fader_create .cubic) ((5 : ℝ) : EReal)).1.curDb =
      (0 : EReal) ∧
    ((5 : ℝ) : EReal) ≠ (0 : EReal) := by
  have h5 : (0 : EReal) < ((5 : ℝ) : EReal) := by
    rw [← EReal.coe_zero, EReal.coe_lt_coe_iff]; norm_num
  have hb : ¬((0 : EReal) < (⊥ : EReal)) := not_lt.mpr bot_le
  refine ⟨?_, ?_, ?_⟩
  · simp [obs_fader_set_db, obs_fader_create, h5, hb]
  · simp [obs_fader_set_db, obs_fader_create, h5, hb]
  · rw [← EReal.coe_zero]
    intro hcon
    rw [EReal.coe_eq_coe_iff] at hcon
    norm_num at hcon

/-- C3 (amended): `obs_fader_set_db` stores the input clamped to
[min_db, max_db] (a value above max_db is stored as max_db, a value
below min_db is stored as -∞), marks the next gain-change
notification self-originated, pushes the linear gain corresponding
to the stored value to the attached source — and its Boolean return
value is true exactly when NO clamping occurred (the negation of
what the claim states). -/
theorem C3_set_db_clamp (f : ObsFader) (db : EReal) (hmm : f.minDb ≤ f.maxDb) :
    ((obs_fader_set_db f db).1.curDb =
      if f.maxDb < db then f.maxDb else if db < f.minDb then ⊥ else db) ∧
    ((obs_fader_set_db f db).2 = true ↔ (db ≤ f.maxDb ∧ f.minDb ≤ db)) ∧
    ((obs_fader_set_db f db).1.ignoreNextSignal = true) ∧
    (∀ v, f.sourceVol = some v →
      (obs_fader_set_db f db).1.sourceVol =
        some (db_to_mul (obs_fader_set_db f db).1.curDb)) := by
  obtain ⟨hc, hbool, hign, _, _, _, hpush⟩ := set_db_spec f db
  refine ⟨?_, ?_, hign, hpush⟩
  · rw [hc]
    by_cases h1 : f.maxDb < db
    · rw [if_pos h1, if_pos h1, if_neg (not_lt.mpr hmm)]
    · rw [if_neg h1, if_neg h1]
  · rw [hbool]
    by_cases h1 : f.maxDb < db
    · have hnle : ¬(db ≤ f.maxDb) := not_le.mpr h1
      simp [h1, hnle]
    · have h0 : db ≤ f.maxDb := not_lt.mp h1
      simp [h1, h0, not_lt]

/-- C3 (amended, witness): the amended theorem at a logarithmic
fader (min_db = -96, max_db = 0) and input -200 dB, which is stored
as -∞ with return value false, while an attached source at volume 1
receives the pushed gain. -/
theorem C3_set_db_clamp_witness :
    ((obs_fader_attach_source (obs_fader_create .logarithmic) 1).minDb ≤
      (obs_fader_attach_source (obs_fader_create .logarithmic) 1).maxDb) ∧
    (((obs_fader_set_db (obs_fader_attach_source (obs_fader_create .logarithmic) 1)
        ((-200 : ℝ) : EReal)).1.curDb =
      if (obs_fader_attach_source (obs_fader_create .logarithmic) 1).maxDb <
          ((-200 : ℝ) : EReal) then
        (obs_fader_attach_source (obs_fader_create .logarithmic) 1).maxDb
      else if ((-200 : ℝ) : EReal) <
          (obs_fader_attach_source (obs_fader_create .logarithmic) 1).minDb then ⊥
      else ((-200 : ℝ) : EReal)) ∧
    ((obs_fader_set_db (obs_fader_attach_source (obs_fader_create .logarithmic) 1)
        ((-200 : ℝ) : EReal)).2 = true ↔
      (((-200 : ℝ) : EReal) ≤
          (obs_fader_attach_source (obs_fader_create .logarithmic) 1).maxDb ∧
        (obs_fader_attach_source (obs_fader_create .logarithmic) 1).minDb ≤
          ((-200 : ℝ) : EReal))) ∧
    ((obs_fader_set_db (obs_fader_attach_source (obs_fader_create .logarithmic) 1)
        ((-200 : ℝ) : EReal)).1.ignoreNextSignal = true) ∧
    (∀ v, (obs_fader_attach_source (obs_fader_create .logarithmic) 1).sourceVol =
        some v →
      (obs_fader_set_db (obs_fader_attach_source (obs_fader_create .logarithmic) 1)
          ((-200 : ℝ) : EReal)).1.sourceVol =
        some (db_to_mul
          (obs_fader_set_db (obs_fader_attach_source (obs_fader_create .logarithmic) 1)
            ((-200 : ℝ) : EReal)).1.curDb))) :=
  ⟨by
    show ((-96 : ℝ) : EReal) ≤ (0 : EReal)
    rw [← EReal.coe_zero, EReal.coe_le_coe_iff]
    norm_num,
   C3_set_db_clamp _ _ (by
    show ((-96 : ℝ) : EReal) ≤ (0 : EReal)
    rw [← EReal.coe_zero, EReal.coe_le_coe_iff]
    norm_num)⟩

/-- C8 (counterexample): the invariant min_db ≤ cur_db ≤ max_db does
not survive every listed mutation.  Attaching a cubic fader
(max_db = 0) to a source whose volume is 10 initializes cur_db to
mul_to_db(10) = 20 dB without clamping, so cur_db > max_db and
cur_db is not the -∞ sentinel; a non-self-originated volume-change
notification carrying volume 10 stores the same unclamped 20 dB. -/
theorem C8_counterexample :
    (obs_fader_attach_source (obs_fader_create .cubic) 10).curDb =
      ((20 : ℝ) : EReal) ∧
    ¬((obs_fader_attach_source (obs_fader_create .cubic) 10).curDb ≤
        (obs_fader_attach_source (obs_fader_create .cubic) 10).maxDb) ∧
    (obs_fader_attach_source (obs_fader_create .cubic) 10).curDb ≠ ⊥ ∧
    (fader_source_volume_changed (obs_fader_create .cubic) 10).1.curDb =
      ((20 : ℝ) : EReal) := by
  have h20 : mul_to_db 10 = ((20 : ℝ) : EReal) := by
    rw [mul_to_db, if_neg (by norm_num)]
    congr 1
    rw [Real.logb_self_eq_one (by norm_num)]
    ring
  have hcur : (obs_fader_attach_source (obs_fader_create .cubic) 10).curDb =
      ((20 : ℝ) : EReal) := by
    rw [obs_fader_attach_source]
    exact h20
  refine ⟨hcur, ?_, ?_, ?_⟩
  · rw [hcur]
    show ¬(((20 : ℝ) : EReal) ≤ (0 : EReal))
    rw [← EReal.coe_zero, EReal.coe_le_coe_iff]
    norm_num
  · rw [hcur]
    exact EReal.coe_ne_bot 20
  · rw [fader_source_volume_changed]
    have hign : ¬((obs_fader_create .cubic).ignoreNextSignal = true) := by
      rw [show (obs_fader_create .cubic).ignoreNextSignal = false from rfl]
      exact Bool.false_ne_true
    rw [if_neg hign]
    exact h20

/-- C8 (amended): after `obs_fader_set_db` (and hence
`set_deflection` and `set_mul`, which are defined through it) the
invariant holds: either cur_db is the -∞ silence sentinel or
min_db ≤ cur_db ≤ max_db, where min_db and max_db are unchanged.
The invariant is NOT re-established by `obs_fader_attach_source` or
by a non-self-originated volume-change notification, which copy the
source's gain into cur_db unclamped. -/
theorem C8_fader_invariant (f : ObsFader) (db : EReal) (hmm : f.minDb ≤ f.maxDb) :
    (obs_fader_set_db f db).1.curDb = ⊥ ∨
    (f.minDb ≤ (obs_fader_set_db f db).1.curDb ∧
      (obs_fader_set_db f db).1.curDb ≤ f.maxDb) := by
  obtain ⟨hc, -⟩ := set_db_spec f db
  rw [hc]
  by_cases h1 : f.maxDb < db
  · rw [if_pos h1, if_neg (not_lt.mpr hmm)]
    exact Or.inr ⟨hmm, le_refl _⟩
  · rw [if_neg h1]
    by_cases h3 : db < f.minDb
    · rw [if_pos h3]; exact Or.inl rfl
    · rw [if_neg h3]; exact Or.inr ⟨not_lt.mp h3, not_lt.mp h1⟩

/-- C8 (amended, witness): the invariant after `set_db(-50)` on a
logarithmic fader (min_db = -96, max_db = 0). -/
theorem C8_fader_invariant_witness :
    ((obs_fader_create .logarithmic).minDb ≤ (obs_fader_create .logarithmic).maxDb) ∧
    ((obs_fader_set_db (obs_fader_create .logarithmic)
        ((-50 : ℝ) : EReal)).1.curDb = ⊥ ∨
      ((obs_fader_create .logarithmic).minDb ≤
          (obs_fader_set_db (obs_fader_create .logarithmic)
            ((-50 : ℝ) : EReal)).1.curDb ∧
        (obs_fader_set_db (obs_fader_create .logarithmic)
            ((-50 : ℝ) : EReal)).1.curDb ≤
          (obs_fader_create .logarithmic).maxDb)) :=
  ⟨by
    show ((-96 : ℝ) : EReal) ≤ (0 : EReal)
    rw [← EReal.coe_zero, EReal.coe_le_coe_iff]
    norm_num,
   C8_fader_invariant _ _ (by
    show ((-96 : ℝ) : EReal) ≤ (0 : EReal)
    rw [← EReal.coe_zero, EReal.coe_le_coe_iff]
    norm_num)⟩

/-- C9 (counterexample): the endpoint equalities hold, but the
claimed biconditionals "deflection = 1 ⇔ db = 0 and deflection ≤ 0 ⇔
db = -∞" fail for two of the three families: the IEC curve maps the
positive deflection 1/2000 (below its lowest 0.001 band) to -∞, and
the logarithmic curve maps deflection 3/2 ≠ 1 to 0 dB and the finite
-100 dB (≤ -96) to deflection 0. -/
theorem C9_counterexample :
    iec_def_to_db (1 / 2000) = ⊥ ∧ ¬((1 / 2000 : ℝ) ≤ 0) ∧
    log_def_to_db (3 / 2) = 0 ∧ (3 / 2 : ℝ) ≠ 1 ∧
    log_db_to_def ((-100 : ℝ) : EReal) = 0 ∧ ((-100 : ℝ) : EReal) ≠ ⊥ := by
  refine ⟨?_, by norm_num, ?_, by norm_num, ?_, EReal.coe_ne_bot _⟩
  · rw [iec_def_to_db, if_neg (by norm_num), if_neg (by norm_num),
      if_neg (by norm_num), if_neg (by norm_num), if_neg (by norm_num),
      if_neg (by norm_num), if_neg (by norm_num), if_neg (by norm_num),
      if_neg (by norm_num)]
  · rw [log_def_to_db, if_pos (by norm_num)]
  · rw [log_db_to_def,
      if_neg (by
        rw [ge_iff_le, ← EReal.coe_zero, EReal.coe_le_coe_iff]
        norm_num),
      if_pos (by rw [EReal.coe_le_coe_iff]; norm_num)]

/-- C9 (amended): for each of the three deflection families the
endpoint saturation equalities hold exactly: def_to_db(1) = 0,
def_to_db(d) = -∞ for every d ≤ 0, db_to_def(0) = 1 and
db_to_def(-∞) = 0.  (The further biconditionals claimed — deflection
= 1 ⇔ db = 0 and deflection ≤ 0 ⇔ db = -∞ — hold only for the cubic
family; IEC saturates to -∞ already below deflection 0.001 and the
logarithmic family saturates on whole regions, as the counterexample
records.) -/
theorem C9_endpoint_saturation :
    (cubic_def_to_db 1 = 0) ∧ (∀ d : ℝ, d ≤ 0 → cubic_def_to_db d = ⊥) ∧
    (cubic_db_to_def 0 = 1) ∧ (cubic_db_to_def ⊥ = 0) ∧
    (iec_def_to_db 1 = 0) ∧ (∀ d : ℝ, d ≤ 0 → iec_def_to_db d = ⊥) ∧
    (iec_db_to_def 0 = 1) ∧ (iec_db_to_def ⊥ = 0) ∧
    (log_def_to_db 1 = 0) ∧ (∀ d : ℝ, d ≤ 0 → log_def_to_db d = ⊥) ∧
    (log_db_to_def 0 = 1) ∧ (log_db_to_def ⊥ = 0) := by
  refine ⟨?_, ?_, ?_, ?_, ?_, ?_, ?_, ?_, ?_, ?_, ?_, ?_⟩
  · rw [cubic_def_to_db, if_pos rfl]
  · intro d hd
    rw [cubic_def_to_db, if_neg (by intro h; rw [h] at hd; norm_num at hd),
      if_pos hd]
  · rw [cubic_db_to_def, if_pos rfl]
  · rw [cubic_db_to_def, if_neg EReal.bot_ne_zero, if_pos rfl]
  · rw [iec_def_to_db, if_pos rfl]
  · intro d hd
    rw [iec_def_to_db, if_neg (by intro h; rw [h] at hd; norm_num at hd),
      if_pos hd]
  · rw [iec_db_to_def, if_pos rfl]
  · rw [iec_db_to_def, if_neg EReal.bot_ne_zero, if_pos rfl]
  · rw [log_def_to_db, if_pos (le_refl 1)]
  · intro d hd
    rw [log_def_to_db, if_neg (by intro h; rw [ge_iff_le] at h; linarith),
      if_pos hd]
  · rw [log_db_to_def, if_pos (le_refl (0 : EReal))]
  · rw [log_db_to_def,
      if_neg (by rw [ge_iff_le]; exact not_le.mpr (EReal.bot_lt_coe 0)),
      if_pos bot_le]

/-- C9 (amended, witness): the saturation equalities applied at the
concrete deflections -5, -1 and -2. -/
theorem C9_endpoint_saturation_witness :
    ((-5 : ℝ) ≤ 0) ∧ ((-1 : ℝ) ≤ 0) ∧ ((-2 : ℝ) ≤ 0) ∧
    cubic_def_to_db (-5) = ⊥ ∧ iec_def_to_db (-1) = ⊥ ∧ log_def_to_db (-2) = ⊥ :=
  ⟨by norm_num, by norm_num, by norm_num,
   C9_endpoint_saturation.2.1 (-5) (by norm_num),
   C9_endpoint_saturation.2.2.2.2.2.1 (-1) (by norm_num),
   C9_endpoint_saturation.2.2.2.2.2.2.2.2.2.1 (-2) (by norm_num)⟩

/-! ## Metering engine (obs-audio-controls.c) -/

/-- MeterState (spec §3): `struct obs_volmeter` without the lock,
signal-handler and conversion-function plumbing.  `finalizeCount` is
a ghost counter of `volmeter_calc_ival_levels` calls, recording how
many accumulation windows have been finalized. -/
structure ObsVolmeter where
  channels : Nat
  update_frames : Nat
  peakhold_frames : Nat
  peakhold_count : Nat
  ival_frames : Nat
  ival_sum : ℝ
  ival_max : ℝ
  vol_peak : ℝ
  vol_mag : ℝ
  vol_max : ℝ
  finalizeCount : Nat

/-- The inner per-plane loop of `volmeter_sum_and_max`: accumulate
the sum of squares and the running maximum square. -/
noncomputable def sumAndMaxPlane (sm : ℝ × ℝ) (samples : List ℝ) : ℝ × ℝ :=
  samples.foldl (fun sm c => (sm.1 + c * c, if sm.2 > c * c then sm.2 else c * c)) sm

/-- `volmeter_sum_and_max` over the non-null planes; each plane
contributes its first `frames` samples. -/
noncomputable def volmeter_sum_and_max (adata : List (List ℝ)) (frames : Nat)
    (sum mx : ℝ) : ℝ × ℝ :=
  adata.foldl (fun sm plane => sumAndMaxPlane sm (plane.take frames)) (sum, mx)

/-- `volmeter_calc_ival_levels`: finalize the accumulation window —
asymmetric snap-up/decay filter for the published max, peak-hold
update, magnitude smoothing from the window RMS, and reset of the
interval data. -/
noncomputable def volmeter_calc_ival_levels (v : ObsVolmeter) : ObsVolmeter :=
  let samples : Nat := v.ival_frames * v.channels
  let alpha : ℝ := 0.15
  let ivalMax := Real.sqrt v.ival_max
  let ivalRms := Real.sqrt (v.ival_sum / (samples : ℝ))
  let volMax := if ivalMax > v.vol_max then ivalMax
    else alpha * v.vol_max + (1 - alpha) * ivalMax
  let pk := if volMax > v.vol_peak ∨ v.peakhold_count > v.peakhold_frames
    then ((volMax, 0) : ℝ × Nat)
    else (v.vol_peak, v.peakhold_count + v.ival_frames)
  let volMag := alpha * ivalRms + v.vol_mag * (1 - alpha)
  { v with
    vol_max := volMax
    vol_peak := pk.1
    peakhold_count := pk.2
    vol_mag := volMag
    ival_frames := 0
    ival_sum := 0
    ival_max := 0
    finalizeCount := v.finalizeCount + 1 }

/-- The while-loop of `volmeter_process_audio_data`, embedded with a
fuel parameter: every recursive call corresponds to a finalized
window and consumes at least one input frame whenever
`update_frames > 0` and the accumulated count is below the window,
so fuel `frames + 1` never runs out on the verified paths. -/
noncomputable def volmeterLoop :
    Nat → ObsVolmeter → List (List ℝ) → Nat → Bool → ObsVolmeter × Bool
  | 0, v, _, _, updated => (v, updated)
  | fuel + 1, v, adata, left, updated =>
    if left = 0 then (v, updated)
    else
      let frames := if v.ival_frames + left > v.update_frames
        then v.update_frames - v.ival_frames else left
      let sm := volmeter_sum_and_max adata frames v.ival_sum v.ival_max
      let v1 := { v with
        ival_sum := sm.1
        ival_max := sm.2
        ival_frames := v.ival_frames + frames }
      let left1 := left - frames
      let adata1 := adata.map (List.drop frames)
      if v1.ival_frames ≠ v1.update_frames then (v1, updated)
      else volmeterLoop fuel (volmeter_calc_ival_levels v1) adata1 left1 true

/-- `volmeter_process_audio_data`. -/
noncomputable def volmeter_process_audio_data (v : ObsVolmeter)
    (frames : Nat) (planes : List (List ℝ)) : ObsVolmeter × Bool :=
  volmeterLoop (frames + 1) v planes frames false

@[simp] theorem calc_ival_update_frames (v : ObsVolmeter) :
    (volmeter_calc_ival_levels v).update_frames = v.update_frames := rfl

@[simp] theorem calc_ival_ival_frames (v : ObsVolmeter) :
    (volmeter_calc_ival_levels v).ival_frames = 0 := rfl

@[simp] theorem calc_ival_finalizeCount (v : ObsVolmeter) :
    (volmeter_calc_ival_levels v).finalizeCount = v.finalizeCount + 1 := rfl

theorem volmeterLoop_spec :
    ∀ (fuel : Nat) (v : ObsVolmeter) (adata : List (List ℝ)) (left : Nat) (u : Bool),
      left < fuel → 0 < v.update_frames → v.ival_frames < v.update_frames →
      ((volmeterLoop fuel v adata left u).1.finalizeCount =
        v.finalizeCount + (v.ival_frames + left) / v.update_frames) ∧
      ((volmeterLoop fuel v adata left u).1.ival_frames =
        (v.ival_frames + left) % v.update_frames) ∧
      ((volmeterLoop fuel v adata left u).2 = true ↔
        (u = true ∨ v.update_frames ≤ v.ival_frames + left)) := by
  intro fuel
  induction fuel with
  | zero => intro v adata left u hlf; omega
  | succ fuel ih =>
    intro v adata left u hlf hupd hival
    rw [volmeterLoop]
    by_cases hl0 : left = 0
    · subst hl0
      rw [if_pos rfl]
      refine ⟨?_, ?_, ?_⟩
      · rw [Nat.add_zero, Nat.div_eq_of_lt hival, Nat.add_zero]
      · rw [Nat.add_zero, Nat.mod_eq_of_lt hival]
      · simp
        intro hcon
        omega
    · rw [if_neg hl0]
      by_cases hover : v.ival_frames + left > v.update_frames
      · rw [if_pos hover]
        have hne : ¬(v.ival_frames + (v.update_frames - v.ival_frames) ≠
            v.update_frames) := by omega
        rw [if_neg hne]
        have hrec := ih (volmeter_calc_ival_levels
            { v with
              ival_sum := (volmeter_sum_and_max adata
                (v.update_frames - v.ival_frames) v.ival_sum v.ival_max).1
              ival_max := (volmeter_sum_and_max adata
                (v.update_frames - v.ival_frames) v.ival_sum v.ival_max).2
              ival_frames := v.ival_frames + (v.update_frames - v.ival_frames) })
          (adata.map (List.drop (v.update_frames - v.ival_frames)))
          (left - (v.update_frames - v.ival_frames)) true
          (by omega)
          (by simp only [calc_ival_update_frames]; exact hupd)
          (by simp only [calc_ival_update_frames, calc_ival_ival_frames]; exact hupd)
        refine ⟨?_, ?_, ?_⟩
        · rw [hrec.1]
          simp only [calc_ival_finalizeCount, calc_ival_ival_frames,
            calc_ival_update_frames, Nat.zero_add]
          have h1 : v.ival_frames + left =
              v.update_frames + (left - (v.update_frames - v.ival_frames)) := by
            omega
          rw [h1]
          rw [Nat.add_div_left _ hupd]
          omega
        · rw [hrec.2.1]
          simp only [calc_ival_ival_frames, calc_ival_update_frames, Nat.zero_add]
          have h1 : v.ival_frames + left =
              v.update_frames + (left - (v.update_frames - v.ival_frames)) := by
            omega
          rw [h1, Nat.add_mod_left]
        · rw [hrec.2.2]
          simp
          omega
      · rw [if_neg hover]
        by_cases heq : v.ival_frames + left = v.update_frames
        · have hne : ¬(v.ival_frames + left ≠ v.update_frames) := by omega
          rw [if_neg hne]
          have hrec := ih (volmeter_calc_ival_levels
              { v with
                ival_sum := (volmeter_sum_and_max adata left v.ival_sum v.ival_max).1
                ival_max := (volmeter_sum_and_max adata left v.ival_sum v.ival_max).2
                ival_frames := v.ival_frames + left })
            (adata.map (List.drop left)) (left - left) true
            (by omega)
            (by simp only [calc_ival_update_frames]; exact hupd)
            (by simp only [calc_ival_update_frames, calc_ival_ival_frames]; exact hupd)
          refine ⟨?_, ?_, ?_⟩
          · rw [hrec.1]
            simp only [calc_ival_finalizeCount, calc_ival_ival_frames,
              calc_ival_update_frames, Nat.sub_self, Nat.add_zero, Nat.zero_add]
            rw [heq, Nat.div_self hupd, Nat.zero_div]
          · rw [hrec.2.1]
            simp only [calc_ival_ival_frames, calc_ival_update_frames,
              Nat.sub_self, Nat.add_zero, Nat.zero_add]
            rw [heq, Nat.mod_self, Nat.zero_mod]
          · rw [hrec.2.2]
            simp
            omega
        · rw [if_pos heq]
          refine ⟨?_, ?_, ?_⟩
          · simp only []
            rw [Nat.div_eq_of_lt (by omega)]
            rw [Nat.add_zero]
          · simp only []
            rw [Nat.mod_eq_of_lt (by omega)]
          · simp
            omega

/-- C5: for any prior accumulation 0 ≤ a < window_frames and any
input of n frames delivered in one call, exactly ⌊(a+n)/window⌋
windows are finalized (counted by the ghost `finalizeCount`, so no
window is finalized twice), the remaining (a+n) mod window frames
stay accumulated for the next call, and the returned "updated" flag
is set exactly when at least one window was finalized. -/
theorem C5_window_finalization (v : ObsVolmeter) (n : Nat) (planes : List (List ℝ))
    (hupd : 0 < v.update_frames) (hival : v.ival_frames < v.update_frames) :
    ((volmeter_process_audio_data v n planes).1.finalizeCount =
      v.finalizeCount + (v.ival_frames + n) / v.update_frames) ∧
    ((volmeter_process_audio_data v n planes).1.ival_frames =
      (v.ival_frames + n) % v.update_frames) ∧
    ((volmeter_process_audio_data v n planes).2 = true ↔
      v.update_frames ≤ v.ival_frames + n) := by
  have h := volmeterLoop_spec (n + 1) v planes n false
    (by omega) hupd hival
  rw [volmeter_process_audio_data]
  refine ⟨h.1, h.2.1, ?_⟩
  rw [h.2.2]
  simp

/-- C5 (witness): feeding 2.5 × window_frames frames (25 frames,
window 10) starting from an empty window finalizes exactly 2 windows
and leaves 5 frames accumulated. -/
theorem C5_window_finalization_witness :
    (0 < (10 : Nat)) ∧ ((0 : Nat) < 10) ∧
    ((volmeter_process_audio_data ⟨1, 10, 0, 0, 0, 0, 0, 0, 0, 0, 0⟩ 25 []).1.finalizeCount =
      0 + (0 + 25) / 10) ∧
    ((volmeter_process_audio_data ⟨1, 10, 0, 0, 0, 0, 0, 0, 0, 0, 0⟩ 25 []).1.ival_frames =
      (0 + 25) % 10) ∧
    ((volmeter_process_audio_data ⟨1, 10, 0, 0, 0, 0, 0, 0, 0, 0, 0⟩ 25 []).2 = true ↔
      (10 : Nat) ≤ 0 + 25) :=
  ⟨by decide, by decide,
   (C5_window_finalization ⟨1, 10, 0, 0, 0, 0, 0, 0, 0, 0, 0⟩ 25 []
     (by decide) (by decide)).1,
   (C5_window_finalization ⟨1, 10, 0, 0, 0, 0, 0, 0, 0, 0, 0⟩ 25 []
     (by decide) (by decide)).2.1,
   (C5_window_finalization ⟨1, 10, 0, 0, 0, 0, 0, 0, 0, 0, 0⟩ 25 []
     (by decide) (by decide)).2.2⟩

/-- A window state about to be finalized with window RMS exactly 1
(one frame, one channel, sum of squares 1) and all published values
at 0. -/
noncomputable def magVolmeter : ObsVolmeter :=
  ⟨1, 10, 0, 0, 1, 1, 0, 0, 0, 0, 0⟩

/-- C6 (counterexample): at a finalization with old magnitude 0 and
window RMS 1, the code publishes 0.15·rms + 0.85·old = 0.15, while
the claim's formula 0.15·old + 0.85·rms predicts 0.85: the weights
are the mirror image of the max filter's decay branch. -/
theorem C6_counterexample :
    (volmeter_calc_ival_levels magVolmeter).vol_mag = 0.15 ∧
    0.15 * magVolmeter.vol_mag + 0.85 * Real.sqrt (magVolmeter.ival_sum /
      ((magVolmeter.ival_frames * magVolmeter.channels : Nat) : ℝ)) = 0.85 ∧
    (0.15 : ℝ) ≠ 0.85 := by
  have hrms : Real.sqrt (magVolmeter.ival_sum /
      ((magVolmeter.ival_frames * magVolmeter.channels : Nat) : ℝ)) = 1 := by
    show Real.sqrt ((1 : ℝ) / ((1 * 1 : Nat) : ℝ)) = 1
    norm_num
  refine ⟨?_, ?_, by norm_num⟩
  · show (0.15 : ℝ) * Real.sqrt ((1 : ℝ) / ((1 * 1 : Nat) : ℝ)) + 0 * (1 - 0.15) = 0.15
    norm_num
  · rw [hrms]
    show (0.15 : ℝ) * 0 + 0.85 * 1 = 0.85
    norm_num

/-- C6 (amended): on every window finalization the published
magnitude is updated from the window RMS
(sqrt(sum_of_squares/(frames×channels))) by the smoothing
new = 0.15·window_rms + 0.85·old — the α = 0.15 weight is on the
window RMS, the mirror image of the max filter's decay branch — and
the magnitude update is unconditional: it never takes a snap-up
branch (the formula holds whatever the relation of window peak and
published max). -/
theorem C6_magnitude_update (v : ObsVolmeter) :
    (volmeter_calc_ival_levels v).vol_mag =
      0.15 * Real.sqrt (v.ival_sum / ((v.ival_frames * v.channels : Nat) : ℝ)) +
      0.85 * v.vol_mag := by
  show (0.15 : ℝ) * Real.sqrt (v.ival_sum / ((v.ival_frames * v.channels : Nat) : ℝ)) +
      v.vol_mag * (1 - 0.15) =
    0.15 * Real.sqrt (v.ival_sum / ((v.ival_frames * v.channels : Nat) : ℝ)) +
      0.85 * v.vol_mag
  ring_nf

end Obs
